import Mathlib

/-!
Verification of the data-directory migration subsystem of memdoc
(`src/core/data_migrator.py`) against its specification.

The filesystem is shallowly embedded: an absolute path is a list of
components, a filesystem is a finite association list from paths to
entries (regular files with byte content and a readability flag, or
directories).  Each Python function of the module is translated into a
Lean function over this state.  OS-level faults (a `shutil.copy2` that
raises, a progress callback that raises, `shutil.move`/`shutil.rmtree`
failures, the free space reported by `shutil.disk_usage`, the timestamp
produced by `datetime.now().strftime`, and the outcome of
`random.sample`) are supplied by an explicit environment (`Config`), so
the translated code is a total function of the initial state and that
environment.
-/

namespace Memdoc

/-- A byte of file content.  Values are bytes (0..255 in practice); the
embedding only needs equality of contents, so `Nat` suffices. -/
abbrev Byte := Nat

/-- An absolute filesystem path, as its list of components
(`/a/b/c` is `["a", "b", "c"]`; the root is `[]`).  Paths are stored
resolved, which models the `Path.resolve()` calls of the source. -/
abbrev Path := List String

/-- A filesystem entry: a regular file with its byte content and a flag
saying whether opening it for reading succeeds, or a directory. -/
inductive Entry where
  | file (content : List Byte) (readable : Bool)
  | dir
deriving DecidableEq

/-- A filesystem: a finite association list from absolute paths to
entries.  The root directory `[]` is implicit and always exists. -/
abbrev FS := List (Path × Entry)

/-- `pfx a b` decides whether path `a` is a (not necessarily proper)
prefix of path `b`, i.e. whether `b` lies in the directory subtree
rooted at `a` (or equals it). -/
def pfx : Path → Path → Bool
  | [], _ => true
  | _ :: _, [] => false
  | a :: as, b :: bs => a = b && pfx as bs

/-- Look an exact path up in the filesystem (first matching entry). -/
def FS.find : FS → Path → Option Entry
  | [], _ => none
  | (q, e) :: rest, p => if q = p then some e else FS.find rest p

/-- Add an entry at a path.  Used only at paths that are absent; an
existing entry at the same path would shadow the added one. -/
def FS.add (fs : FS) (p : Path) (e : Entry) : FS := fs ++ [(p, e)]

/-- `Path.exists()`: the root always exists, other paths exist when the
filesystem has an entry for them. -/
def FS.pathExists (fs : FS) (p : Path) : Bool := p.isEmpty || (FS.find fs p).isSome

/-- `Path.is_dir()`. -/
def FS.isDir (fs : FS) (p : Path) : Bool :=
  p.isEmpty ||
    match FS.find fs p with
    | some Entry.dir => true
    | _ => false

/-- `Path.is_file()`. -/
def FS.isFile (fs : FS) (p : Path) : Bool :=
  match FS.find fs p with
  | some (Entry.file _ _) => true
  | _ => false

/-- `Path.rglob('*')`: every recorded path strictly below `root`,
files and directories alike. -/
def FS.rglob (fs : FS) (root : Path) : List Path :=
  (fs.filter (fun kv => pfx root kv.1 && root.length < kv.1.length)).map (fun kv => kv.1)

/-- `Path.iterdir()`: the direct children of `root`. -/
def FS.iterdir (fs : FS) (root : Path) : List Path :=
  (fs.filter (fun kv => kv.1.length = root.length + 1 && pfx root kv.1)).map (fun kv => kv.1)

/-- `shutil.rmtree`: remove a directory and everything below it. -/
def FS.rmtree (fs : FS) (root : Path) : FS :=
  fs.filter (fun kv => !(pfx root kv.1))

/-- `shutil.move` in its rename form: every entry under `src` is
re-rooted under `dst`.  The migrator only moves onto a fresh
timestamped path, which the theorems make explicit. -/
def FS.move (fs : FS) (src dst : Path) : FS :=
  fs.map (fun kv => if pfx src kv.1 then (dst ++ kv.1.drop src.length, kv.2) else kv)

/-- An exception raised by one of the modelled OS operations.  The
rendered text of a real `OSError` is system dependent; each constructor
carries what the migrator interpolates into its messages. -/
inductive Exc where
  | mkdirFail (p : Path)
  | diskUsageFail (p : Path)
  | copyFail (p : Path)
  | srcUnreadable (p : Path)
  | callbackRaised (bytesCopied totalBytes : Nat)
  | moveFail
  | rmtreeFail (p : Path)
deriving DecidableEq

/-- Render a path the way an f-string renders a resolved `Path`. -/
def pathToString (p : Path) : String := "/" ++ String.intercalate "/" p

/-- Render a path relative to a migration root, as
`source_file.relative_to(source)` prints. -/
def relString (p : Path) : String := String.intercalate "/" p

/-- The `str(e)` of a modelled exception. -/
def Exc.msg : Exc → String
  | Exc.mkdirFail p => "mkdir failed: " ++ pathToString p
  | Exc.diskUsageFail p => "disk usage unavailable: " ++ pathToString p
  | Exc.copyFail p => "copy failed: " ++ pathToString p
  | Exc.srcUnreadable p => "permission denied: " ++ pathToString p
  | Exc.callbackRaised _ _ => "progress callback raised"
  | Exc.moveFail => "move failed"
  | Exc.rmtreeFail p => "rmtree failed: " ++ pathToString p

/-- `Path.mkdir(parents=True, exist_ok=True)`, walking the prefixes of
the requested path from the root: an existing directory is kept, a
missing one is created, and a regular file in the way raises. -/
def mkdirpGo : FS → Path → List String → Except Exc FS
  | fs, _, [] => Except.ok fs
  | fs, pre, c :: rest =>
    let q := pre ++ [c]
    match FS.find fs q with
    | some Entry.dir => mkdirpGo fs q rest
    | some (Entry.file _ _) => Except.error (Exc.mkdirFail q)
    | none => mkdirpGo (FS.add fs q Entry.dir) q rest

/-- `p.mkdir(parents=True, exist_ok=True)`. -/
def FS.mkdirp (fs : FS) (p : Path) : Except Exc FS := mkdirpGo fs [] p

/-- The size a file contributes to `calculate_directory_size`
(`item.stat().st_size`); non-files contribute nothing. -/
def FS.fileSize (fs : FS) (p : Path) : Nat :=
  match FS.find fs p with
  | some (Entry.file c _) => c.length
  | _ => 0

/-- `calculate_directory_size` (data_migrator.py lines 18-38): total
byte size of the regular files below `path`. -/
def calculate_directory_size (fs : FS) (path : Path) : Nat :=
  ((FS.rglob fs path).map (fun p => FS.fileSize fs p)).sum

/-- `calculate_file_checksum` (lines 41-58).  `some c` models the MD5
hex digest of content `c` — per the spec the hash is assumed
collision-free, so a digest is represented by the content itself —
and `none` models the empty string `""` the function returns when the
file cannot be opened and read (missing path, directory, or no read
permission).  A real digest is a 32-character hex string and is never
`""`, which `some _ ≠ none` reflects. -/
def calculate_file_checksum (fs : FS) (p : Path) : Option (List Byte) :=
  match FS.find fs p with
  | some (Entry.file c true) => some c
  | _ => none

/-- The manifest/subdirectory check of `verify_migration`
(lines 79-94), returning the failure message if any. -/
def structuralCheck (fs : FS) (source destination : Path) : Option String :=
  if FS.pathExists fs (source ++ ["memoir.json"]) then
    if !(FS.pathExists fs (destination ++ ["memoir.json"])) then
      some "memoir.json not found in destination"
    else if !(FS.pathExists fs (destination ++ ["chapters"]) && FS.isDir fs (destination ++ ["chapters"])) then
      some "chapters/ directory not found in destination"
    else if !(FS.pathExists fs (destination ++ ["images"]) && FS.isDir fs (destination ++ ["images"])) then
      some "images/ directory not found in destination"
    else none
  else none

/-- The regular files below `root`, in filesystem order
(`[f for f in root.rglob('*') if f.is_file()]`). -/
def filesUnder (fs : FS) (root : Path) : List Path :=
  (FS.rglob fs root).filter (fun p => FS.isFile fs p)

/-- The sampled-checksum loop of `verify_migration` (lines 113-124),
over an explicit list of sampled source files. -/
def checkSample (fs : FS) (source destination : Path) : List Path → Bool × String
  | [] => (true, "Migration verified successfully")
  | f :: rest =>
    let rel := f.drop source.length
    let dest_file := destination ++ rel
    if !(FS.pathExists fs dest_file) then
      (false, "File missing in destination: " ++ relString rel)
    else if calculate_file_checksum fs f ≠ calculate_file_checksum fs dest_file then
      (false, "Checksum mismatch for " ++ relString rel)
    else checkSample fs source destination rest

/-- The file-count comparison and checksum sampling of
`verify_migration` (lines 96-126): the recursive file counts of source
and destination must agree, and the sampled files must all pass
`checkSample`. -/
def verifyTail (fs : FS) (source destination : Path)
    (sampleSel : List Path → List Path) : Bool × String :=
  let source_file_count := (filesUnder fs source).length
  let dest_file_count := (filesUnder fs destination).length
  if source_file_count ≠ dest_file_count then
    (false, "File count mismatch: source has " ++ toString source_file_count ++
      ", destination has " ++ toString dest_file_count)
  else
    let sample_files := filesUnder fs source
    if sample_files.isEmpty then (true, "Migration verified successfully")
    else checkSample fs source destination (sampleSel sample_files)

/-- `verify_migration` (lines 61-126).  `sampleSel` supplies the
outcome of `random.sample(sample_files, min(5, len(sample_files)))`;
a theorem that depends on the sample being one `random.sample`
outcome states this with `ValidSample`. -/
def verify_migration (fs : FS) (source destination : Path)
    (sampleSel : List Path → List Path) : Bool × String :=
  if !(FS.pathExists fs destination) then (false, "Destination directory does not exist")
  else if !(FS.isDir fs destination) then (false, "Destination exists but is not a directory")
  else
    match structuralCheck fs source destination with
    | some m => (false, m)
    | none => verifyTail fs source destination sampleSel

/-- A possible outcome of `random.sample(files, min(5, len(files)))`:
distinct elements of `files`, `min 5 (files.length)` of them. -/
def ValidSample (files sample : List Path) : Prop :=
  sample.Nodup ∧ (∀ p, p ∈ sample → p ∈ files) ∧ sample.length = min 5 files.length

/-- The migration record (`stats` dict of `migrate_data_directory`,
lines 161-166). -/
structure Stats where
  files_copied : Nat
  bytes_copied : Nat
  backup_location : Option String
  error : Option String
deriving DecidableEq

/-- The freshly initialised record. -/
def initStats : Stats := ⟨0, 0, none, none⟩

/-- The environment of one `migrate_data_directory` call: everything
the OS and the standard library decide. -/
structure Config where
  /-- `shutil.disk_usage(...).free` at the destination volume. -/
  free : Nat
  /-- `datetime.now().strftime("%Y%m%d_%H%M%S")`. -/
  timestamp : String
  /-- Outcome of `random.sample` on the given file list. -/
  sample : List Path → List Path
  /-- Whether a `progress_callback` was passed. -/
  has_callback : Bool
  /-- Whether the callback raises when invoked with these arguments. -/
  callback_raises : Nat → Nat → Bool
  /-- Whether `shutil.copy2` raises for this source file. -/
  copy_fails : Path → Bool
  /-- Whether `shutil.move` of the source to the backup raises. -/
  move_fails : Bool
  /-- Whether `shutil.rmtree` of this root raises. -/
  rmtree_fails : Path → Bool

/-- The validation block of `migrate_data_directory` (lines 174-197),
returning the error message of the first failing check. -/
def validateMigration (fs : FS) (source destination : Path) : Option String :=
  if !(FS.pathExists fs source) then
    some ("Source directory does not exist: " ++ pathToString source)
  else if !(FS.isDir fs source) then
    some ("Source is not a directory: " ++ pathToString source)
  else if source = destination then
    some "Source and destination are the same"
  else if FS.pathExists fs destination && !(FS.isDir fs destination) then
    some ("Destination exists but is not a directory: " ++ pathToString destination)
  else if FS.pathExists fs destination && !(FS.iterdir fs destination).isEmpty then
    some ("Destination directory is not empty: " ++ pathToString destination)
  else none

/-- One iteration of the copy loop of `migrate_data_directory`
(lines 219-238), for the snapshot path `p`: if `p` is (still) a regular
file, create the parent directories at the mirrored destination path
(line 225), copy the file preserving its metadata (line 228, raising if
`shutil.copy2` fails or the source file cannot be read), update the
record (lines 231-234) and invoke the progress callback (lines 237-238,
raising if the callback raises).  A raised exception carries the state
and record at the moment it is raised. -/
def copyStep (cfg : Config) (source destination : Path) (total_bytes : Nat)
    (p : Path) (fs : FS) (st : Stats) : Except (Exc × FS × Stats) (FS × Stats) :=
  if FS.isFile fs p then
    let rel := p.drop source.length
    match FS.mkdirp fs (destination ++ rel).dropLast with
    | Except.error e => Except.error (e, fs, st)
    | Except.ok fs' =>
      if cfg.copy_fails p then Except.error (Exc.copyFail p, fs', st)
      else
        match FS.find fs' p with
        | some (Entry.file c r) =>
          if r then
            let fs'' := FS.add fs' (destination ++ rel) (Entry.file c r)
            let st' := { st with files_copied := st.files_copied + 1,
                                 bytes_copied := st.bytes_copied + c.length }
            if cfg.has_callback && cfg.callback_raises st'.bytes_copied total_bytes then
              Except.error (Exc.callbackRaised st'.bytes_copied total_bytes, fs'', st')
            else Except.ok (fs'', st')
          else Except.error (Exc.srcUnreadable p, fs', st)
        | _ => Except.ok (fs', st)
  else Except.ok (fs, st)

/-- The copy loop of `migrate_data_directory` (lines 216-238), folding
`copyStep` over the snapshot of the source tree; an exception raised in
the body aborts the loop. -/
def copyFiles (cfg : Config) (source destination : Path) (total_bytes : Nat) :
    List Path → FS → Stats → Except (Exc × FS × Stats) (FS × Stats)
  | [], fs, st => Except.ok (fs, st)
  | p :: todo, fs, st =>
    match copyStep cfg source destination total_bytes p fs st with
    | Except.error e => Except.error e
    | Except.ok (fs2, st2) => copyFiles cfg source destination total_bytes todo fs2 st2

/-- Destination creation (line 213) followed by the copy loop over the
snapshot of the source tree. -/
def copyPhase (cfg : Config) (fs : FS) (source destination : Path) (total_bytes : Nat) :
    Except (Exc × FS × Stats) (FS × Stats) :=
  match FS.mkdirp fs destination with
  | Except.error e => Except.error (e, fs, initStats)
  | Except.ok fs1 => copyFiles cfg source destination total_bytes (FS.rglob fs1 source) fs1 initStats

/-- `Path(...).name` of a resolved path. -/
def sourceName (p : Path) : String := p.getLastD ""

/-- The timestamped sibling backup path,
`source.parent / (source.name + ".backup." + timestamp)` (lines 255-257). -/
def backupPath (source : Path) (timestamp : String) : Path :=
  source.dropLast ++ [sourceName source ++ ".backup." ++ timestamp]

/-- The finalisation of a verified migration (lines 252-274): rename
the source to the timestamped backup, or delete it; either failure is
recorded as a warning on a still-successful result. -/
def finalizePhase (cfg : Config) (fs2 : FS) (st2 : Stats) (source : Path)
    (keep_backup : Bool) : FS × Bool × Stats :=
  if keep_backup then
    let backup_path := backupPath source cfg.timestamp
    if cfg.move_fails then
      (fs2, true, { st2 with error := some ("Warning: Could not create backup: " ++ Exc.msg Exc.moveFail) })
    else
      (FS.move fs2 source backup_path, true,
        { st2 with backup_location := some (pathToString backup_path) })
  else
    if cfg.rmtree_fails source then
      (fs2, true, { st2 with error := some ("Warning: Could not remove source directory: " ++
        Exc.msg (Exc.rmtreeFail source)) })
    else
      (FS.rmtree fs2 source, true, st2)

/-- The `{x:.2f}` gigabyte rendering used by the insufficient-space
message.  The quotient by `1024 ** 3` is rendered with two decimal
places (the model truncates where Python's float formatting rounds;
the message's role — reporting both quantities — is unaffected). -/
def fmtGB (bytes : Nat) : String :=
  let h := bytes * 100 / 1073741824
  toString (h / 100) ++ "." ++ (if h % 100 < 10 then "0" ++ toString (h % 100) else toString (h % 100))

/-- The insufficient-disk-space message (line 209). -/
def insufficientSpaceMsg (needBytes freeBytes : Nat) : String :=
  "Insufficient disk space. Need " ++ fmtGB needBytes ++ " GB, have " ++ fmtGB freeBytes ++ " GB free"

/-- `migrate_data_directory` (lines 129-278).  Returns the final
filesystem together with `(success, stats)`.  The `try` of the source
wraps everything after record creation, so every modelled exception is
caught and converted into `(False, stats)` with
`stats['error'] = "Migration failed: {e}"`; the function is total.
The comparison `dest_stat.free < total_bytes * 1.1` is modelled
exactly as `10 * free < 11 * total_bytes` (the source computes it in
floating point; the 10% margin is the intent and the model is exact).
`shutil.disk_usage` raises when its argument does not exist, which the
`duPath` existence test reproduces. -/
def migrate_data_directory (cfg : Config) (fs : FS) (source destination : Path)
    (keep_backup : Bool) : FS × Bool × Stats :=
  match validateMigration fs source destination with
  | some err => (fs, false, { initStats with error := some err })
  | none =>
    let total_bytes := calculate_directory_size fs source
    let duPath := if FS.pathExists fs destination then destination else destination.dropLast
    if !(FS.pathExists fs duPath) then
      (fs, false, { initStats with error := some ("Migration failed: " ++ Exc.msg (Exc.diskUsageFail duPath)) })
    else if 10 * cfg.free < 11 * total_bytes then
      (fs, false, { initStats with error := some (insufficientSpaceMsg total_bytes cfg.free) })
    else
      match copyPhase cfg fs source destination total_bytes with
      | Except.error (e, fs', st) =>
        (fs', false, { st with error := some ("Migration failed: " ++ Exc.msg e) })
      | Except.ok (fs2, st2) =>
        match verify_migration fs2 source destination cfg.sample with
        | (false, m) =>
          let fs3 := if cfg.rmtree_fails destination then fs2 else FS.rmtree fs2 destination
          (fs3, false, { st2 with error := some ("Migration verification failed: " ++ m) })
        | (true, _) => finalizePhase cfg fs2 st2 source keep_backup

/-- The keys (paths) recorded in a filesystem. -/
def keysOf (fs : FS) : List Path := fs.map (fun kv => kv.1)

/-- Well-formedness of a filesystem: paths are recorded at most once,
the root has no explicit entry, and the parent of every entry is a
recorded directory (or the root). -/
def WF (fs : FS) : Prop :=
  (keysOf fs).Nodup ∧
  (∀ kv, kv ∈ fs → kv.1 ≠ []) ∧
  (∀ kv, kv ∈ fs → kv.1.dropLast = [] ∨ FS.find fs kv.1.dropLast = some Entry.dir)

/-- No entry lies strictly below a regular file. -/
def NFD (fs : FS) : Prop :=
  ∀ p q c r, FS.find fs p = some (Entry.file c r) → pfx p q = true → p ≠ q →
    FS.find fs q = none

instance (fs : FS) : Decidable (WF fs) := by unfold WF; infer_instance

instance (files sample : List Path) : Decidable (ValidSample files sample) := by
  unfold ValidSample; infer_instance

theorem pfx_iff (a b : Path) : pfx a b = true ↔ ∃ t, b = a ++ t := by
  induction a generalizing b with
  | nil => simp [pfx]
  | cons x as ih =>
    cases b with
    | nil =>
      simp only [pfx, Bool.false_eq_true, false_iff]
      rintro ⟨t, ht⟩
      exact List.cons_ne_nil _ _ ht.symm
    | cons y bs =>
      simp only [pfx, Bool.and_eq_true, decide_eq_true_eq, ih]
      constructor
      · rintro ⟨rfl, t, rfl⟩
        exact ⟨t, rfl⟩
      · rintro ⟨t, ht⟩
        rw [List.cons_append] at ht
        obtain ⟨rfl, rfl⟩ := List.cons.inj ht
        exact ⟨rfl, t, rfl⟩

theorem pfx_refl (a : Path) : pfx a a = true :=
  (pfx_iff a a).mpr ⟨[], (List.append_nil a).symm⟩

theorem pfx_append (a t : Path) : pfx a (a ++ t) = true :=
  (pfx_iff a (a ++ t)).mpr ⟨t, rfl⟩

theorem pfx_length_le {a b : Path} (h : pfx a b = true) : a.length ≤ b.length := by
  obtain ⟨t, rfl⟩ := (pfx_iff a b).mp h
  simp [List.length_append]

theorem append_drop_of_pfx {a b : Path} (h : pfx a b = true) :
    a ++ b.drop a.length = b := by
  obtain ⟨t, rfl⟩ := (pfx_iff a b).mp h
  rw [List.drop_left]

theorem take_of_pfx {a b : Path} (h : pfx a b = true) : b.take a.length = a := by
  obtain ⟨t, rfl⟩ := (pfx_iff a b).mp h
  rw [List.take_left]

theorem pfx_trans {a b c : Path} (h1 : pfx a b = true) (h2 : pfx b c = true) :
    pfx a c = true := by
  obtain ⟨t, rfl⟩ := (pfx_iff a b).mp h1
  obtain ⟨u, rfl⟩ := (pfx_iff (a ++ t) c).mp h2
  rw [List.append_assoc]
  exact pfx_append _ _

theorem pfx_antisymm {a b : Path} (h1 : pfx a b = true) (h2 : pfx b a = true) :
    a = b := by
  obtain ⟨t, rfl⟩ := (pfx_iff a b).mp h1
  have := pfx_length_le h2
  simp only [List.length_append] at this
  have ht : t = [] := List.eq_nil_of_length_eq_zero (by omega)
  simp [ht]

theorem pfx_take (n : Nat) (b : Path) : pfx (b.take n) b = true :=
  (pfx_iff _ _).mpr ⟨b.drop n, (List.take_append_drop n b).symm⟩

theorem pfx_of_pfx_of_le {a b : Path} {n : Nat} (h : pfx a b = true)
    (hn : a.length ≤ n) : pfx a (b.take n) = true := by
  have : (b.take n).take a.length = a := by
    rw [List.take_take, Nat.min_eq_left hn, take_of_pfx h]
  calc pfx a (b.take n) = pfx ((b.take n).take a.length) (b.take n) := by rw [this]
  _ = true := pfx_take _ _

theorem pfx_comp {a b c : Path} (h1 : pfx a c = true) (h2 : pfx b c = true) :
    pfx a b = true ∨ pfx b a = true := by
  rcases Nat.le_total a.length b.length with hle | hle
  · left
    have : (c.take b.length).take a.length = a := by
      rw [List.take_take, Nat.min_eq_left hle, take_of_pfx h1]
    rw [take_of_pfx h2] at this
    calc pfx a b = pfx (b.take a.length) b := by rw [this]
    _ = true := pfx_take _ _
  · right
    have : (c.take a.length).take b.length = b := by
      rw [List.take_take, Nat.min_eq_left hle, take_of_pfx h2]
    rw [take_of_pfx h1] at this
    calc pfx b a = pfx (a.take b.length) a := by rw [this]
    _ = true := pfx_take _ _

theorem length_lt_of_pfx_ne {a b : Path} (h : pfx a b = true) (hne : a ≠ b) :
    a.length < b.length := by
  obtain ⟨t, rfl⟩ := (pfx_iff a b).mp h
  cases t with
  | nil => exact absurd (List.append_nil a).symm hne
  | cons x xs => simp [List.length_append]

theorem pfx_dropLast {a b : Path} (h : pfx a b = true) (hlt : a.length < b.length) :
    pfx a b.dropLast = true := by
  rw [List.dropLast_eq_take]
  exact pfx_of_pfx_of_le h (by omega)

theorem pfx_app_app (a x y : Path) : pfx (a ++ x) (a ++ y) = pfx x y := by
  induction a with
  | nil => rfl
  | cons c cs ih => simp [pfx, ih]

theorem find_some_mem {fs : FS} {p : Path} {e : Entry} (h : FS.find fs p = some e) :
    (p, e) ∈ fs := by
  induction fs with
  | nil => exact absurd h (by rw [FS.find]; exact Option.noConfusion)
  | cons kv rest ih =>
    obtain ⟨q, e'⟩ := kv
    rw [FS.find] at h
    by_cases hq : q = p
    · subst hq
      rw [if_pos rfl] at h
      obtain rfl := Option.some.inj h
      exact List.mem_cons_self _ _
    · rw [if_neg hq] at h
      exact List.mem_cons_of_mem _ (ih h)

theorem find_eq_none_iff {fs : FS} {p : Path} :
    FS.find fs p = none ↔ p ∉ keysOf fs := by
  induction fs with
  | nil =>
    constructor
    · intro _
      intro hm
      exact List.not_mem_nil p hm
    · intro _
      rfl
  | cons kv rest ih =>
    obtain ⟨q, e'⟩ := kv
    rw [FS.find]
    by_cases hq : q = p
    · subst hq
      rw [if_pos rfl]
      constructor
      · intro h
        exact Option.noConfusion h
      · intro h
        exfalso
        apply h
        rw [keysOf, List.map_cons]
        exact List.mem_cons_self _ _
    · simp only [if_neg hq, ih, keysOf, List.map_cons, List.mem_cons]
      constructor
      · rintro h (rfl | hm)
        · exact hq rfl
        · exact h hm
      · intro h hm
        exact h (Or.inr hm)

theorem find_of_mem_nodup {fs : FS} {p : Path} {e : Entry}
    (hnd : (keysOf fs).Nodup) (hm : (p, e) ∈ fs) : FS.find fs p = some e := by
  induction fs with
  | nil => exact absurd hm (List.not_mem_nil _)
  | cons kv rest ih =>
    obtain ⟨q, e'⟩ := kv
    rw [keysOf, List.map_cons, List.nodup_cons] at hnd
    rw [FS.find]
    rcases List.mem_cons.mp hm with heq | hm'
    · injection heq with h1 h2
      subst h1
      subst h2
      rw [if_pos rfl]
    · have hq : q ≠ p := by
        rintro rfl
        exact hnd.1 (List.mem_map.mpr ⟨(q, e), hm', rfl⟩)
      rw [if_neg hq]
      exact ih hnd.2 hm'

theorem find_add (fs : FS) (p : Path) (e : Entry) (q : Path) :
    FS.find (FS.add fs p e) q =
      (FS.find fs q).or (if p = q then some e else none) := by
  induction fs with
  | nil => simp [FS.add, FS.find]
  | cons kv rest ih =>
    obtain ⟨k, e'⟩ := kv
    rw [FS.add, List.cons_append]
    rw [FS.find, FS.find]
    by_cases hk : k = q
    · simp [hk]
    · rw [if_neg hk, if_neg hk]
      exact ih

theorem find_rmtree (fs : FS) (root q : Path) :
    FS.find (FS.rmtree fs root) q =
      if pfx root q then none else FS.find fs q := by
  induction fs with
  | nil =>
    rw [FS.rmtree, List.filter_nil]
    by_cases hq : pfx root q
    · simp [hq, FS.find]
    · simp [hq]
  | cons kv rest ih =>
    obtain ⟨k, e'⟩ := kv
    rw [FS.rmtree, List.filter_cons]
    rw [FS.rmtree] at ih
    by_cases hk : pfx root k = true
    · rw [hk]
      simp only [Bool.not_true, Bool.false_eq_true, if_false]
      rw [ih]
      by_cases hq : pfx root q
      · simp [hq]
      · simp only [hq, Bool.false_eq_true, if_false]
        have hkq : k ≠ q := by
          rintro rfl
          rw [hk] at hq
          exact hq rfl
        rw [FS.find, if_neg hkq]
    · rw [Bool.not_eq_true] at hk
      rw [hk]
      simp only [Bool.not_false, if_true]
      rw [FS.find, FS.find]
      by_cases hq : k = q
      · subst hq
        rw [if_pos rfl, if_pos rfl]
        rw [hk]
        simp
      · rw [if_neg hq, if_neg hq, ih]

theorem keysOf_nodup_rglob {fs : FS} (hnd : (keysOf fs).Nodup) (root : Path) :
    (FS.rglob fs root).Nodup := by
  unfold FS.rglob
  unfold keysOf at hnd
  exact hnd.sublist ((List.filter_sublist fs).map (fun kv => kv.1))

theorem mem_rglob_iff {fs : FS} {root q : Path} :
    q ∈ FS.rglob fs root ↔
      (∃ e, (q, e) ∈ fs) ∧ pfx root q = true ∧ root.length < q.length := by
  rw [FS.rglob]
  simp only [List.mem_map, List.mem_filter, Bool.and_eq_true, decide_eq_true_eq]
  constructor
  · rintro ⟨⟨k, e⟩, ⟨hm, hp, hl⟩, rfl⟩
    exact ⟨⟨e, hm⟩, hp, hl⟩
  · rintro ⟨⟨e, hm⟩, hp, hl⟩
    exact ⟨(q, e), ⟨hm, hp, hl⟩, rfl⟩

theorem pathExists_iff {fs : FS} {p : Path} :
    FS.pathExists fs p = true ↔ p = [] ∨ ∃ e, FS.find fs p = some e := by
  rw [FS.pathExists, Bool.or_eq_true, List.isEmpty_iff, Option.isSome_iff_exists]

theorem isDir_iff {fs : FS} {p : Path} :
    FS.isDir fs p = true ↔ p = [] ∨ FS.find fs p = some Entry.dir := by
  rw [FS.isDir, Bool.or_eq_true, List.isEmpty_iff]
  cases hf : FS.find fs p with
  | none => simp
  | some e => cases e <;> simp

theorem isFile_iff {fs : FS} {p : Path} :
    FS.isFile fs p = true ↔ ∃ c r, FS.find fs p = some (Entry.file c r) := by
  rw [FS.isFile]
  cases hf : FS.find fs p with
  | none => simp
  | some e => cases e <;> simp

theorem find_move_of_not_pfx_dst {fs : FS} {src dst q : Path}
    (hq : pfx dst q = false) :
    FS.find (FS.move fs src dst) q = if pfx src q then none else FS.find fs q := by
  induction fs with
  | nil =>
    rw [FS.move, List.map_nil]
    by_cases hs : pfx src q <;> simp [hs, FS.find]
  | cons kv rest ih =>
    obtain ⟨k, e⟩ := kv
    rw [FS.move, List.map_cons]
    rw [FS.move] at ih
    by_cases hk : pfx src k = true
    · rw [if_pos hk]
      have hne : dst ++ k.drop src.length ≠ q := by
        rintro rfl
        rw [pfx_append] at hq
        exact absurd hq (by simp)
      rw [FS.find, if_neg hne, ih]
      by_cases hs : pfx src q = true
      · rw [if_pos hs, if_pos hs]
      · rw [if_neg hs, if_neg hs]
        have hkq : k ≠ q := by
          rintro rfl
          exact hs hk
        rw [FS.find, if_neg hkq]
    · rw [if_neg hk]
      rw [FS.find]
      by_cases hkq : k = q
      · subst hkq
        rw [if_pos rfl]
        rw [Bool.not_eq_true] at hk
        rw [hk]
        simp only [Bool.false_eq_true, if_false]
        rw [FS.find, if_pos rfl]
      · rw [if_neg hkq, ih]
        by_cases hs : pfx src q = true
        · rw [if_pos hs, if_pos hs]
        · rw [if_neg hs, if_neg hs, FS.find, if_neg hkq]

theorem find_move_dst {fs : FS} {src dst : Path}
    (hclean : ∀ kv, kv ∈ fs → pfx dst kv.1 = false) (rest' : Path) :
    FS.find (FS.move fs src dst) (dst ++ rest') = FS.find fs (src ++ rest') := by
  induction fs with
  | nil =>
    rw [FS.move, List.map_nil]
    rfl
  | cons kv rest ih =>
    obtain ⟨k, e⟩ := kv
    rw [FS.move, List.map_cons]
    rw [FS.move] at ih
    have ih' := ih (fun kv hm => hclean kv (List.mem_cons_of_mem _ hm))
    by_cases hk : pfx src k = true
    · rw [if_pos hk]
      rw [FS.find, FS.find]
      by_cases hkey : dst ++ k.drop src.length = dst ++ rest'
      · have hdrop : k.drop src.length = rest' := List.append_cancel_left hkey
        have hkeq : k = src ++ rest' := by
          rw [← hdrop]
          exact (append_drop_of_pfx hk).symm
        rw [if_pos hkey, if_pos hkeq]
      · have hkeq : k ≠ src ++ rest' := by
          rintro rfl
          apply hkey
          rw [List.drop_left]
        rw [if_neg hkey, if_neg hkeq, ih']
    · rw [if_neg hk]
      rw [FS.find, FS.find]
      have h1 : k ≠ dst ++ rest' := by
        rintro rfl
        have := hclean (dst ++ rest', e) (List.mem_cons_self _ _)
        rw [pfx_append] at this
        exact absurd this (by simp)
      have h2 : k ≠ src ++ rest' := by
        rintro rfl
        rw [pfx_append] at hk
        exact hk rfl
      rw [if_neg h1, if_neg h2, ih']

theorem iterdir_ne_nil {fs : FS} {d k : Path} {e : Entry}
    (hm : (k, e) ∈ fs) (hl : k.length = d.length + 1) (hp : pfx d k = true) :
    FS.iterdir fs d ≠ [] := by
  have : k ∈ FS.iterdir fs d := by
    rw [FS.iterdir]
    exact List.mem_map.mpr ⟨(k, e), List.mem_filter.mpr ⟨hm, by simp [hl, hp]⟩, rfl⟩
  exact List.ne_nil_of_mem this

theorem mkdirpGo_find_some {fs fs' : FS} {pre : Path} {rest : List String} {q : Path}
    {e : Entry} (h : mkdirpGo fs pre rest = Except.ok fs') (hf : FS.find fs q = some e) :
    FS.find fs' q = some e := by
  induction rest generalizing fs pre with
  | nil =>
    rw [mkdirpGo] at h
    injection h with h2
    subst h2
    exact hf
  | cons c cs ih =>
    rw [mkdirpGo] at h
    cases hfind : FS.find fs (pre ++ [c]) with
    | some e' =>
      cases e' with
      | dir =>
        rw [hfind] at h
        exact ih h hf
      | file content readable =>
        rw [hfind] at h
        exact absurd h (by simp)
    | none =>
      rw [hfind] at h
      refine ih h ?_
      rw [find_add, hf]
      rfl

theorem mkdirpGo_find_new {fs fs' : FS} {pre : Path} {rest : List String} {q : Path}
    (h : mkdirpGo fs pre rest = Except.ok fs') (hq : FS.find fs q = none)
    (hq' : FS.find fs' q ≠ none) :
    FS.find fs' q = some Entry.dir ∧
      ∃ n, 0 < n ∧ n ≤ rest.length ∧ q = pre ++ rest.take n := by
  induction rest generalizing fs pre with
  | nil =>
    rw [mkdirpGo] at h
    injection h with h2
    subst h2
    exact absurd hq hq'
  | cons c cs ih =>
    rw [mkdirpGo] at h
    cases hfind : FS.find fs (pre ++ [c]) with
    | some e' =>
      cases e' with
      | dir =>
        rw [hfind] at h
        obtain ⟨hd, n, hn0, hnl, hqe⟩ := ih h hq
        refine ⟨hd, n + 1, Nat.succ_pos n, by simp only [List.length_cons]; omega, ?_⟩
        rw [hqe, List.append_assoc]
        rfl
      | file content readable =>
        rw [hfind] at h
        exact absurd h (by simp)
    | none =>
      rw [hfind] at h
      by_cases hqc : q = pre ++ [c]
      · subst hqc
        have hadd : FS.find (FS.add fs (pre ++ [c]) Entry.dir) (pre ++ [c]) = some Entry.dir := by
          rw [find_add, hq, if_pos rfl]
          rfl
        refine ⟨mkdirpGo_find_some h hadd, 1, Nat.one_pos, by simp, by simp⟩
      · have hq2 : FS.find (FS.add fs (pre ++ [c]) Entry.dir) q = none := by
          rw [find_add, hq, if_neg (fun hh => hqc hh.symm)]
          rfl
        obtain ⟨hd, n, hn0, hnl, hqe⟩ := ih h hq2
        refine ⟨hd, n + 1, Nat.succ_pos n, by simp only [List.length_cons]; omega, ?_⟩
        rw [hqe, List.append_assoc]
        rfl

theorem mkdirpGo_chain_dir {fs fs' : FS} {pre : Path} {rest : List String}
    (h : mkdirpGo fs pre rest = Except.ok fs') :
    ∀ n, 0 < n → n ≤ rest.length → FS.find fs' (pre ++ rest.take n) = some Entry.dir := by
  induction rest generalizing fs pre with
  | nil =>
    intro n hn0 hnl
    exact absurd (Nat.le_trans hn0 hnl) (by simp)
  | cons c cs ih =>
    intro n hn0 hnl
    rw [mkdirpGo] at h
    cases hfind : FS.find fs (pre ++ [c]) with
    | some e' =>
      cases e' with
      | dir =>
        rw [hfind] at h
        obtain ⟨m, rfl⟩ : ∃ m, n = m + 1 := ⟨n - 1, by omega⟩
        cases m with
        | zero =>
          have ht : (c :: cs).take 1 = [c] := rfl
          rw [ht]
          exact mkdirpGo_find_some h hfind
        | succ m2 =>
          have ht : (c :: cs).take (m2 + 2) = c :: cs.take (m2 + 1) := rfl
          rw [ht]
          have hrec := ih h (m2 + 1) (Nat.succ_pos m2)
            (by simp only [List.length_cons] at hnl; omega)
          rw [List.append_assoc] at hrec
          exact hrec
      | file content readable =>
        rw [hfind] at h
        exact absurd h (by simp)
    | none =>
      rw [hfind] at h
      have hadd : FS.find (FS.add fs (pre ++ [c]) Entry.dir) (pre ++ [c]) = some Entry.dir := by
        rw [find_add, hfind, if_pos rfl]
        rfl
      obtain ⟨m, rfl⟩ : ∃ m, n = m + 1 := ⟨n - 1, by omega⟩
      cases m with
      | zero =>
        have ht : (c :: cs).take 1 = [c] := rfl
        rw [ht]
        exact mkdirpGo_find_some h hadd
      | succ m2 =>
        have ht : (c :: cs).take (m2 + 2) = c :: cs.take (m2 + 1) := rfl
        rw [ht]
        have hrec := ih h (m2 + 1) (Nat.succ_pos m2)
          (by simp only [List.length_cons] at hnl; omega)
        rw [List.append_assoc] at hrec
        exact hrec

theorem mkdirpGo_nodup {fs fs' : FS} {pre : Path} {rest : List String}
    (h : mkdirpGo fs pre rest = Except.ok fs') (hnd : (keysOf fs).Nodup) :
    (keysOf fs').Nodup := by
  induction rest generalizing fs pre with
  | nil =>
    rw [mkdirpGo] at h
    injection h with h2
    subst h2
    exact hnd
  | cons c cs ih =>
    rw [mkdirpGo] at h
    cases hfind : FS.find fs (pre ++ [c]) with
    | some e' =>
      cases e' with
      | dir =>
        rw [hfind] at h
        exact ih h hnd
      | file content readable =>
        rw [hfind] at h
        exact absurd h (by simp)
    | none =>
      rw [hfind] at h
      refine ih h ?_
      have hk : keysOf (FS.add fs (pre ++ [c]) Entry.dir) = keysOf fs ++ [pre ++ [c]] := by
        rw [FS.add, keysOf, keysOf, List.map_append]
        rfl
      rw [hk]
      rw [List.nodup_append]
      refine ⟨hnd, List.nodup_singleton _, ?_⟩
      intro a ha hb
      rw [List.mem_singleton] at hb
      subst hb
      exact absurd (find_eq_none_iff.mp hfind) (fun hh => hh ha)

theorem mkdirp_find_some {fs fs' : FS} {p q : Path} {e : Entry}
    (h : FS.mkdirp fs p = Except.ok fs') (hf : FS.find fs q = some e) :
    FS.find fs' q = some e :=
  mkdirpGo_find_some h hf

theorem mkdirp_find_new {fs fs' : FS} {p q : Path}
    (h : FS.mkdirp fs p = Except.ok fs') (hq : FS.find fs q = none)
    (hq' : FS.find fs' q ≠ none) :
    FS.find fs' q = some Entry.dir ∧ ∃ n, 0 < n ∧ n ≤ p.length ∧ q = p.take n := by
  obtain ⟨hd, n, hn0, hnl, hqe⟩ := mkdirpGo_find_new h hq hq'
  exact ⟨hd, n, hn0, hnl, by simpa using hqe⟩

theorem mkdirp_chain_dir {fs fs' : FS} {p : Path}
    (h : FS.mkdirp fs p = Except.ok fs') :
    ∀ n, 0 < n → n ≤ p.length → FS.find fs' (p.take n) = some Entry.dir := by
  intro n hn0 hnl
  have := mkdirpGo_chain_dir h n hn0 hnl
  simpa using this

theorem mkdirp_nodup {fs fs' : FS} {p : Path}
    (h : FS.mkdirp fs p = Except.ok fs') (hnd : (keysOf fs).Nodup) :
    (keysOf fs').Nodup :=
  mkdirpGo_nodup h hnd

theorem mkdirp_find_unchanged {fs fs' : FS} {p q : Path}
    (h : FS.mkdirp fs p = Except.ok fs')
    (hq : ∀ n, 0 < n → n ≤ p.length → q ≠ p.take n) :
    FS.find fs' q = FS.find fs q := by
  cases hf : FS.find fs q with
  | some e => exact mkdirp_find_some h hf
  | none =>
    by_contra hne
    obtain ⟨_, n, hn0, hnl, hqe⟩ := mkdirp_find_new h hf hne
    exact hq n hn0 hnl hqe


theorem wf_closure_aux {fs : FS} (hwf : WF fs) :
    ∀ n p e, p.length = n → (p, e) ∈ fs → ∀ q, pfx q p = true → q ≠ p → q ≠ [] →
      FS.find fs q = some Entry.dir := by
  intro n
  induction n using Nat.strong_induction_on with
  | _ n ih =>
    intro p e hlen hm q hq hne hq0
    obtain ⟨hnd, hne0, hpar⟩ := hwf
    have hp0 : p ≠ [] := hne0 (p, e) hm
    have hlt := length_lt_of_pfx_ne hq hne
    rcases hpar (p, e) hm with hd0 | hdir
    · exfalso
      have h1 : p.dropLast.length = p.length - 1 := by
        rw [List.length_dropLast]
      have h2 : p.dropLast.length = 0 := by rw [hd0]; rfl
      have : q.length = 0 := by omega
      exact hq0 (List.eq_nil_of_length_eq_zero this)
    · by_cases hqd : q = p.dropLast
      · rw [hqd]
        exact hdir
      · have hdl : p.dropLast.length = p.length - 1 := by
          rw [List.length_dropLast]
        have hq2 : pfx q p.dropLast = true := by
          rw [List.dropLast_eq_take]
          exact pfx_of_pfx_of_le hq (by omega)
        have hm2 : (p.dropLast, Entry.dir) ∈ fs := find_some_mem hdir
        exact ih (n - 1) (by omega) p.dropLast Entry.dir (by omega) hm2 q hq2 hqd hq0

theorem wf_closure {fs : FS} (hwf : WF fs) {p : Path} {e : Entry} {q : Path}
    (hm : (p, e) ∈ fs) (hq : pfx q p = true) (hne : q ≠ p) (hq0 : q ≠ []) :
    FS.find fs q = some Entry.dir :=
  wf_closure_aux hwf p.length p e rfl hm q hq hne hq0

theorem nfd_of_wf {fs : FS} (hwf : WF fs) : NFD fs := by
  intro p q c r hp hq hne
  by_contra hcon
  obtain ⟨e, he⟩ := Option.ne_none_iff_exists'.mp hcon
  have hm := find_some_mem he
  have hp0 : p ≠ [] := hwf.2.1 (p, Entry.file c r) (find_some_mem hp)
  have := wf_closure hwf hm hq hne hp0
  rw [hp] at this
  exact Entry.noConfusion (Option.some.inj this)

theorem subtree_imp_iterdir_ne_nil {fs : FS} (hwf : WF fs) {d k : Path} {e : Entry}
    (hm : (k, e) ∈ fs) (hp : pfx d k = true) (hne : d ≠ k) :
    FS.iterdir fs d ≠ [] := by
  have hlt : d.length < k.length := length_lt_of_pfx_ne hp hne
  set q := k.take (d.length + 1) with hqdef
  have hql : q.length = d.length + 1 := by
    rw [hqdef, List.length_take]
    omega
  have hqp : pfx d q = true := pfx_of_pfx_of_le hp (by omega)
  by_cases hqk : q = k
  · exact iterdir_ne_nil hm (hqk ▸ hql) (hqk ▸ hqp)
  · have hq0 : q ≠ [] := by
      intro hh
      rw [hh] at hql
      exact Nat.noConfusion hql
    have := wf_closure hwf hm (pfx_take _ _) hqk hq0
    exact iterdir_ne_nil (find_some_mem this) hql hqp

theorem validate_none_parts {fs : FS} {s d : Path} (h : validateMigration fs s d = none) :
    FS.pathExists fs s = true ∧ FS.isDir fs s = true ∧ s ≠ d ∧
      (FS.pathExists fs d = true → FS.isDir fs d = true ∧ FS.iterdir fs d = []) := by
  unfold validateMigration at h
  split_ifs at h with h1 h2 h3 h4 h5
  rw [Bool.not_eq_true] at h1 h2
  rw [Bool.not_eq_false'] at h1 h2
  refine ⟨h1, h2, h3, fun hpe => ⟨?_, ?_⟩⟩
  · by_contra hdir
    rw [Bool.not_eq_true] at hdir
    exact h4 (by rw [hpe, hdir]; rfl)
  · by_contra hitd
    apply h5
    rw [hpe]
    have : (FS.iterdir fs d).isEmpty = false := by
      rw [Bool.eq_false_iff]
      intro hx
      exact hitd (List.isEmpty_iff.mp hx)
    rw [this]
    rfl

theorem validate_none_not_pfx {fs : FS} {s d : Path} (hwf : WF fs)
    (h : validateMigration fs s d = none) : pfx d s = false := by
  obtain ⟨hps, hds, hsd, hdest⟩ := validate_none_parts h
  by_contra hb
  rw [Bool.not_eq_false] at hb
  have hne : d ≠ s := fun he => hsd he.symm
  have hs0 : s ≠ [] := by
    rintro rfl
    obtain ⟨t, ht⟩ := (pfx_iff d []).mp hb
    exact hne (List.append_eq_nil.mp ht.symm).1
  have hsdir : FS.find fs s = some Entry.dir := by
    rcases isDir_iff.mp hds with h0 | h0
    · exact absurd h0 hs0
    · exact h0
  have hm : (s, Entry.dir) ∈ fs := find_some_mem hsdir
  have hpe : FS.pathExists fs d = true := by
    by_cases hd0 : d = []
    · rw [hd0]
      rfl
    · have := wf_closure hwf hm hb hne hd0
      rw [pathExists_iff]
      exact Or.inr ⟨Entry.dir, this⟩
  have hit := (hdest hpe).2
  exact subtree_imp_iterdir_ne_nil hwf hm hb hne hit

theorem validate_none_dest_empty {fs : FS} {s d : Path} (hwf : WF fs)
    (h : validateMigration fs s d = none) :
    ∀ rel, rel ≠ [] → FS.find fs (d ++ rel) = none := by
  obtain ⟨hps, hds, hsd, hdest⟩ := validate_none_parts h
  intro rel hrel
  by_contra hb
  obtain ⟨e, he⟩ := Option.ne_none_iff_exists'.mp hb
  have hm := find_some_mem he
  have hp : pfx d (d ++ rel) = true := pfx_append _ _
  have hne : d ≠ d ++ rel := by
    intro hh
    have h2 := congrArg List.length hh
    rw [List.length_append] at h2
    have h3 : rel.length = 0 := by omega
    exact hrel (List.eq_nil_of_length_eq_zero h3)
  have hpe : FS.pathExists fs d = true := by
    by_cases hd0 : d = []
    · rw [hd0]
      rfl
    · have := wf_closure hwf hm hp hne hd0
      rw [pathExists_iff]
      exact Or.inr ⟨Entry.dir, this⟩
  have hit := (hdest hpe).2
  exact subtree_imp_iterdir_ne_nil hwf hm hp hne hit

theorem find_add_of_ne {fs : FS} {p q : Path} {e : Entry} (h : p ≠ q) :
    FS.find (FS.add fs p e) q = FS.find fs q := by
  rw [find_add, if_neg h]
  cases FS.find fs q <;> rfl

theorem find_add_self {fs : FS} {p : Path} {e : Entry} (h : FS.find fs p = none) :
    FS.find (FS.add fs p e) p = some e := by
  rw [find_add, h, if_pos rfl]
  rfl

theorem dropLast_append_ne_nil {a b : Path} (h : b ≠ []) :
    (a ++ b).dropLast = a ++ b.dropLast := by
  induction a with
  | nil => rfl
  | cons x xs ih =>
    rw [List.cons_append, List.cons_append, ← ih]
    cases hc : xs ++ b with
    | nil => exact absurd (List.append_eq_nil.mp hc).2 h
    | cons y ys => rw [List.dropLast_cons₂]

theorem take_append_of_le {a b : Path} {n : Nat} (h : n ≤ a.length) :
    (a ++ b).take n = a.take n := by
  rw [List.take_append_eq_append_take]
  have : n - a.length = 0 := by omega
  rw [this, List.take_zero, List.append_nil]

theorem take_append_of_ge {a b : Path} {n : Nat} (h : a.length ≤ n) :
    (a ++ b).take n = a ++ b.take (n - a.length) := by
  rw [List.take_append_eq_append_take, List.take_of_length_le h]

theorem copyStep_ok_cases {cfg : Config} {src dest : Path} {total : Nat}
    {p : Path} {fs fsN : FS} {st stN : Stats}
    (h : copyStep cfg src dest total p fs st = Except.ok (fsN, stN)) :
    (FS.isFile fs p = false ∧ fsN = fs ∧ stN = st) ∨
    (∃ fs' c,
      FS.isFile fs p = true ∧
      FS.mkdirp fs (dest ++ p.drop src.length).dropLast = Except.ok fs' ∧
      FS.find fs' p = some (Entry.file c true) ∧
      fsN = FS.add fs' (dest ++ p.drop src.length) (Entry.file c true) ∧
      stN = { st with files_copied := st.files_copied + 1,
                      bytes_copied := st.bytes_copied + c.length }) ∨
    (∃ fs',
      FS.isFile fs p = true ∧
      FS.mkdirp fs (dest ++ p.drop src.length).dropLast = Except.ok fs' ∧
      (FS.find fs' p = none ∨ FS.find fs' p = some Entry.dir) ∧
      fsN = fs' ∧ stN = st) := by
  unfold copyStep at h
  dsimp only at h
  split at h
  case isTrue hfile =>
    split at h
    case h_1 e heq => exact absurd h (by simp)
    case h_2 fs' heq =>
      split at h
      case isTrue hcf => exact absurd h (by simp)
      case isFalse hcf =>
        split at h
        case h_1 c r heq2 =>
          split at h
          case isTrue hr =>
            split at h
            case isTrue hcb => exact absurd h (by simp)
            case isFalse hcb =>
              injection h with h2
              injection h2 with ha hb
              subst hr
              exact Or.inr (Or.inl ⟨fs', c, hfile, heq, heq2, ha.symm, hb.symm⟩)
          case isFalse hr => exact absurd h (by simp)
        case h_2 hne =>
          injection h with h2
          injection h2 with ha hb
          refine Or.inr (Or.inr ⟨fs', hfile, heq, ?_, ha.symm, hb.symm⟩)
          cases hf : FS.find fs' p with
          | none => exact Or.inl rfl
          | some e =>
            cases e with
            | file c r => exact absurd hf (by intro hh; exact hne c r hh)
            | dir => exact Or.inr rfl
  case isFalse hfile =>
    injection h with h2
    injection h2 with ha hb
    exact Or.inl ⟨by rw [Bool.not_eq_true] at hfile; exact hfile, ha.symm, hb.symm⟩

theorem copyFiles_ok_inv
    (cfg : Config) (src dest : Path) (total : Nat) (fs1 : FS)
    (hsd : pfx src dest = false) (hds : pfx dest src = false)
    (hnfd : NFD fs1)
    (hchain : ∀ n, 0 < n → n ≤ dest.length → FS.find fs1 (dest.take n) = some Entry.dir) :
    ∀ todo done fs st fs2 st2,
      copyFiles cfg src dest total todo fs st = Except.ok (fs2, st2) →
      (∀ p, p ∈ done ++ todo → pfx src p = true ∧ p ≠ src) →
      (done ++ todo).Nodup →
      (∀ q, pfx dest q = false → FS.find fs q = FS.find fs1 q) →
      FS.find fs dest = some Entry.dir →
      (∀ rel c r, rel ≠ [] →
        (FS.find fs (dest ++ rel) = some (Entry.file c r) ↔
          (src ++ rel) ∈ done ∧ FS.find fs1 (src ++ rel) = some (Entry.file c r))) →
      (∀ rel, rel ≠ [] → FS.find fs (dest ++ rel) = some Entry.dir →
        ∃ rel2, (src ++ rel2) ∈ done ∧ FS.isFile fs1 (src ++ rel2) = true ∧
          pfx rel rel2 = true ∧ rel ≠ rel2) →
      ((∀ q, pfx dest q = false → FS.find fs2 q = FS.find fs1 q) ∧
        (∀ rel c r, rel ≠ [] →
          (FS.find fs2 (dest ++ rel) = some (Entry.file c r) ↔
            (src ++ rel) ∈ done ++ todo ∧ FS.find fs1 (src ++ rel) = some (Entry.file c r)))) := by
  intro todo
  induction todo with
  | nil =>
    intro done fs st fs2 st2 hcp hmem hnd hF1 hF3 hF2 hF4
    rw [copyFiles] at hcp
    injection hcp with h2
    injection h2 with ha hb
    subst ha
    simp only [List.append_nil]
    exact ⟨hF1, hF2⟩
  | cons p todo ih =>
    intro done fs st fs2 st2 hcp hmem hnd hF1 hF3 hF2 hF4
    rw [copyFiles] at hcp
    cases hstep : copyStep cfg src dest total p fs st with
    | error e =>
      rw [hstep] at hcp
      exact absurd hcp (by simp)
    | ok res =>
      obtain ⟨fsN, stN⟩ := res
      rw [hstep] at hcp
      have heqL : (done ++ [p]) ++ todo = done ++ p :: todo := by
        rw [List.append_assoc]
        rfl
      have hmem' : ∀ q, q ∈ (done ++ [p]) ++ todo → pfx src q = true ∧ q ≠ src := by
        intro q hq
        rw [heqL] at hq
        exact hmem q hq
      have hnd' : ((done ++ [p]) ++ todo).Nodup := by
        rw [heqL]
        exact hnd
      obtain ⟨hpfx, hpne⟩ :=
        hmem p (List.mem_append.mpr (Or.inr (List.mem_cons_self _ _)))
      have hrelp : p = src ++ p.drop src.length := (append_drop_of_pfx hpfx).symm
      have hrelne : p.drop src.length ≠ [] := by
        intro hh
        apply hpne
        rw [hrelp, hh, List.append_nil]
      have hpnotd : pfx dest p = false := by
        by_contra hb
        rw [Bool.not_eq_false] at hb
        rcases pfx_comp hb hpfx with hx | hx
        · rw [hds] at hx
          exact Bool.noConfusion hx
        · rw [hsd] at hx
          exact Bool.noConfusion hx
      have hpnotdone : p ∉ done := by
        intro hmemp
        have hdisj := (List.nodup_append.mp hnd).2.2
        exact hdisj hmemp (List.mem_cons_self _ _)
      rcases copyStep_ok_cases hstep with ⟨hfile, hfs, hst⟩ |
        ⟨fs', c, hfile, hmk, hfind, hfs, hst⟩ | ⟨fs', hfile, hmk, hor, hfs, hst⟩
      · -- the path is no longer a regular file: nothing happens
        rw [hfs, hst] at hcp
        have hF2' : ∀ rel c r, rel ≠ [] →
            (FS.find fs (dest ++ rel) = some (Entry.file c r) ↔
              (src ++ rel) ∈ done ++ [p] ∧
                FS.find fs1 (src ++ rel) = some (Entry.file c r)) := by
          intro rel c r hrel
          rw [hF2 rel c r hrel]
          constructor
          · rintro ⟨hm, hx⟩
            exact ⟨List.mem_append.mpr (Or.inl hm), hx⟩
          · rintro ⟨hm, hx⟩
            rcases List.mem_append.mp hm with hm | hm
            · exact ⟨hm, hx⟩
            · exfalso
              rw [List.mem_singleton] at hm
              have hfr : FS.find fs (src ++ rel) = FS.find fs1 (src ++ rel) := by
                apply hF1
                rw [hm]
                exact hpnotd
              rw [hm] at hfr hx
              rw [FS.isFile, hfr, hx] at hfile
              exact Bool.noConfusion hfile
        have hF4' : ∀ rel, rel ≠ [] → FS.find fs (dest ++ rel) = some Entry.dir →
            ∃ rel2, (src ++ rel2) ∈ done ++ [p] ∧ FS.isFile fs1 (src ++ rel2) = true ∧
              pfx rel rel2 = true ∧ rel ≠ rel2 := by
          intro rel hrel hdir
          obtain ⟨rel2, hm2, hf2, hp2, hne2⟩ := hF4 rel hrel hdir
          exact ⟨rel2, List.mem_append.mpr (Or.inl hm2), hf2, hp2, hne2⟩
        obtain ⟨hfin1, hfin2⟩ := ih (done ++ [p]) fs st fs2 st2 hcp hmem' hnd' hF1 hF3 hF2' hF4'
        rw [heqL] at hfin2
        exact ⟨hfin1, hfin2⟩
      · -- the file is copied
        rw [hfs, hst] at hcp
        rw [dropLast_append_ne_nil hrelne] at hmk
        -- the source file as seen in fs, fs1
        have hfsp : FS.find fs p = some (Entry.file c true) := by
          have h1 : FS.find fs' p = FS.find fs p := by
            cases hfq : FS.find fs p with
            | some e => exact mkdirp_find_some hmk hfq
            | none =>
              rw [FS.isFile, hfq] at hfile
              exact Bool.noConfusion hfile
          rw [← h1, hfind]
        have hfs1p : FS.find fs1 p = some (Entry.file c true) := by
          rw [← hF1 p hpnotd]
          exact hfsp
        -- mkdirp does not disturb anything outside the destination subtree
        have hf'1 : ∀ q, pfx dest q = false → FS.find fs' q = FS.find fs q := by
          intro q hq
          cases hfq : FS.find fs q with
          | some e => exact mkdirp_find_some hmk hfq
          | none =>
            by_contra hne2
            obtain ⟨hdir, n, hn0, hnl, hqe⟩ := mkdirp_find_new hmk hfq hne2
            by_cases hle : n ≤ dest.length
            · rw [take_append_of_le hle] at hqe
              by_cases hndl : n = dest.length
              · rw [hndl, List.take_length] at hqe
                subst hqe
                rw [pfx_refl] at hq
                exact Bool.noConfusion hq
              · have h5 := hchain n hn0 (by omega)
                rw [← hqe] at h5
                rw [hF1 q hq, h5] at hfq
                exact Option.noConfusion hfq
            · rw [take_append_of_ge (by omega)] at hqe
              rw [hqe, pfx_append] at hq
              exact Bool.noConfusion hq
        have hf'3 : FS.find fs' dest = some Entry.dir := mkdirp_find_some hmk hF3
        -- the target path of the copy carries no entry yet
        have hnotex : FS.find fs (dest ++ p.drop src.length) = none := by
          cases hfe : FS.find fs (dest ++ p.drop src.length) with
          | none => rfl
          | some e =>
            exfalso
            cases e with
            | file c0 r0 =>
              obtain ⟨hm0, _⟩ := (hF2 _ c0 r0 hrelne).mp hfe
              rw [← hrelp] at hm0
              exact hpnotdone hm0
            | dir =>
              obtain ⟨rel2, hm2, hf2, hp2, hne2⟩ := hF4 _ hrelne hfe
              obtain ⟨c2, r2, hfind2⟩ := isFile_iff.mp hf2
              have hpp : pfx p (src ++ rel2) = true := by
                rw [hrelp, pfx_app_app]
                exact hp2
              have hpne2 : p ≠ src ++ rel2 := by
                rw [hrelp]
                intro hh
                exact hne2 (List.append_cancel_left hh)
              have := hnfd p (src ++ rel2) c true hfs1p hpp hpne2
              rw [hfind2] at this
              exact Option.noConfusion this
        have hnotex' : FS.find fs' (dest ++ p.drop src.length) = none := by
          have hunch : FS.find fs' (dest ++ p.drop src.length) =
              FS.find fs (dest ++ p.drop src.length) := by
            apply mkdirp_find_unchanged hmk
            intro n hn0 hnl hqe
            have hlen := congrArg List.length hqe
            rw [List.length_append, List.length_take, List.length_append,
              List.length_dropLast] at hlen
            have hrellen : 0 < (p.drop src.length).length :=
              List.length_pos.mpr hrelne
            omega
          rw [hunch, hnotex]
        -- invariants for the extended filesystem
        have hne_pd : dest ++ p.drop src.length ≠ dest := by
          intro hh
          have := congrArg List.length hh
          rw [List.length_append] at this
          have hrellen : 0 < (p.drop src.length).length :=
            List.length_pos.mpr hrelne
          omega
        have hG1 : ∀ q, pfx dest q = false →
            FS.find (FS.add fs' (dest ++ p.drop src.length) (Entry.file c true)) q =
              FS.find fs1 q := by
          intro q hq
          rw [find_add_of_ne]
          · rw [hf'1 q hq]
            exact hF1 q hq
          · intro hh
            rw [← hh, pfx_append] at hq
            exact Bool.noConfusion hq
        have hG3 : FS.find (FS.add fs' (dest ++ p.drop src.length) (Entry.file c true))
            dest = some Entry.dir := by
          rw [find_add_of_ne hne_pd]
          exact hf'3
        have hfilestep : ∀ rel c' r', FS.find fs' (dest ++ rel) = some (Entry.file c' r') ↔
            FS.find fs (dest ++ rel) = some (Entry.file c' r') := by
          intro rel c' r'
          constructor
          · intro hx
            cases hfq : FS.find fs (dest ++ rel) with
            | some e =>
              have := mkdirp_find_some hmk hfq
              rw [this] at hx
              exact hx
            | none =>
              obtain ⟨hdir, _⟩ := mkdirp_find_new hmk hfq (by rw [hx]; exact Option.noConfusion)
              rw [hdir] at hx
              exact absurd (Option.some.inj hx) (fun hh => Entry.noConfusion hh)
          · intro hx
            exact mkdirp_find_some hmk hx
        have hG2 : ∀ rel c' r', rel ≠ [] →
            (FS.find (FS.add fs' (dest ++ p.drop src.length) (Entry.file c true))
                (dest ++ rel) = some (Entry.file c' r') ↔
              (src ++ rel) ∈ done ++ [p] ∧
                FS.find fs1 (src ++ rel) = some (Entry.file c' r')) := by
          intro rel c' r' hrel
          by_cases hreleq : rel = p.drop src.length
          · subst hreleq
            rw [find_add_self hnotex']
            constructor
            · intro hx
              have hx2 := Option.some.inj hx
              injection hx2 with hc hr
              subst hc
              subst hr
              refine ⟨List.mem_append.mpr (Or.inr ?_), ?_⟩
              · rw [← hrelp]
                exact List.mem_singleton.mpr rfl
              · rw [← hrelp]
                exact hfs1p
            · rintro ⟨hm, hx⟩
              rw [← hrelp] at hx
              rw [hfs1p] at hx
              rw [hx]
          · have hneq : dest ++ p.drop src.length ≠ dest ++ rel := by
              intro hh
              exact hreleq (List.append_cancel_left hh).symm
            rw [find_add_of_ne hneq, hfilestep rel c' r', hF2 rel c' r' hrel]
            constructor
            · rintro ⟨hm, hx⟩
              exact ⟨List.mem_append.mpr (Or.inl hm), hx⟩
            · rintro ⟨hm, hx⟩
              rcases List.mem_append.mp hm with hm | hm
              · exact ⟨hm, hx⟩
              · exfalso
                rw [List.mem_singleton, hrelp] at hm
                exact hreleq (List.append_cancel_left hm)
        have hG4 : ∀ rel, rel ≠ [] →
            FS.find (FS.add fs' (dest ++ p.drop src.length) (Entry.file c true))
                (dest ++ rel) = some Entry.dir →
            ∃ rel2, (src ++ rel2) ∈ done ++ [p] ∧ FS.isFile fs1 (src ++ rel2) = true ∧
              pfx rel rel2 = true ∧ rel ≠ rel2 := by
          intro rel hrel hdirN
          by_cases hreleq : rel = p.drop src.length
          · subst hreleq
            rw [find_add_self hnotex'] at hdirN
            exact absurd (Option.some.inj hdirN) (fun hh => Entry.noConfusion hh)
          · have hneq : dest ++ p.drop src.length ≠ dest ++ rel := by
              intro hh
              exact hreleq (List.append_cancel_left hh).symm
            rw [find_add_of_ne hneq] at hdirN
            cases hfq : FS.find fs (dest ++ rel) with
            | some e =>
              have := mkdirp_find_some hmk hfq
              rw [this] at hdirN
              have he := Option.some.inj hdirN
              subst he
              obtain ⟨rel2, hm2, hf2, hp2, hne2⟩ := hF4 rel hrel hfq
              exact ⟨rel2, List.mem_append.mpr (Or.inl hm2), hf2, hp2, hne2⟩
            | none =>
              obtain ⟨_, n, hn0, hnl, hqe⟩ :=
                mkdirp_find_new hmk hfq (by rw [hdirN]; exact Option.noConfusion)
              by_cases hle : n ≤ dest.length
              · exfalso
                rw [take_append_of_le hle] at hqe
                have hlen := congrArg List.length hqe
                rw [List.length_append, List.length_take] at hlen
                have : rel.length = 0 := by omega
                exact hrel (List.eq_nil_of_length_eq_zero this)
              · rw [take_append_of_ge (by omega)] at hqe
                have hreltake : rel = (p.drop src.length).dropLast.take (n - dest.length) :=
                  List.append_cancel_left hqe
                refine ⟨p.drop src.length, ?_, ?_, ?_, ?_⟩
                · rw [← hrelp]
                  exact List.mem_append.mpr (Or.inr (List.mem_singleton.mpr rfl))
                · rw [← hrelp]
                  rw [FS.isFile, hfs1p]
                · rw [hreltake]
                  refine pfx_trans (pfx_take _ _) ?_
                  rw [List.dropLast_eq_take]
                  exact pfx_take _ _
                · intro hh
                  have hlen := congrArg List.length hreltake
                  rw [List.length_take, List.length_dropLast] at hlen
                  have hrellen : 0 < (p.drop src.length).length :=
                    List.length_pos.mpr hrelne
                  rw [hh] at hlen
                  omega
        obtain ⟨hfin1, hfin2⟩ := ih (done ++ [p]) _ _ fs2 st2 hcp hmem' hnd' hG1 hG3 hG2 hG4
        rw [heqL] at hfin2
        exact ⟨hfin1, hfin2⟩
      · -- impossible: the path was a regular file
        exfalso
        obtain ⟨c0, r0, hfp⟩ := isFile_iff.mp hfile
        have := mkdirp_find_some hmk hfp
        rcases hor with hor | hor
        · rw [hor] at this
          exact Option.noConfusion this
        · rw [hor] at this
          exact Entry.noConfusion (Option.some.inj this)

theorem mkdirpGo_ok_no_file {fs fs' : FS} {pre : Path} {rest : List String}
    (h : mkdirpGo fs pre rest = Except.ok fs') :
    ∀ n, 0 < n → n ≤ rest.length → ∀ c r,
      FS.find fs (pre ++ rest.take n) ≠ some (Entry.file c r) := by
  induction rest generalizing fs pre with
  | nil =>
    intro n hn0 hnl c r hcon
    rw [List.length_nil] at hnl
    omega
  | cons c0 cs ih =>
    intro n hn0 hnl c r hcon
    rw [mkdirpGo] at h
    cases hfind : FS.find fs (pre ++ [c0]) with
    | some e =>
      cases e with
      | dir =>
        rw [hfind] at h
        obtain ⟨m, rfl⟩ : ∃ m, n = m + 1 := ⟨n - 1, by omega⟩
        cases m with
        | zero =>
          have ht : (c0 :: cs).take 1 = [c0] := rfl
          rw [ht] at hcon
          rw [hfind] at hcon
          exact Entry.noConfusion (Option.some.inj hcon)
        | succ m2 =>
          have ht : (c0 :: cs).take (m2 + 2) = c0 :: cs.take (m2 + 1) := rfl
          rw [ht] at hcon
          refine ih h (m2 + 1) (Nat.succ_pos m2)
            (by simp only [List.length_cons] at hnl; omega) c r ?_
          rw [List.append_assoc]
          exact hcon
      | file c1 r1 =>
        rw [hfind] at h
        exact absurd h (by simp)
    | none =>
      rw [hfind] at h
      obtain ⟨m, rfl⟩ : ∃ m, n = m + 1 := ⟨n - 1, by omega⟩
      cases m with
      | zero =>
        have ht : (c0 :: cs).take 1 = [c0] := rfl
        rw [ht] at hcon
        rw [hfind] at hcon
        exact Option.noConfusion hcon
      | succ m2 =>
        have ht : (c0 :: cs).take (m2 + 2) = c0 :: cs.take (m2 + 1) := rfl
        rw [ht] at hcon
        refine ih h (m2 + 1) (Nat.succ_pos m2)
          (by simp only [List.length_cons] at hnl; omega) c r ?_
        rw [find_add]
        have hcon2 : FS.find fs ((pre ++ [c0]) ++ List.take (m2 + 1) cs) =
            some (Entry.file c r) := by
          rw [List.append_assoc]
          exact hcon
        rw [hcon2]
        rfl

theorem nfd_mkdirp {fs fs' : FS} {dpath : Path} (hwf : WF fs)
    (h : FS.mkdirp fs dpath = Except.ok fs') : NFD fs' := by
  have hnfd := nfd_of_wf hwf
  intro p q c r hp hq hne
  have hfp : FS.find fs p = some (Entry.file c r) := by
    cases hf : FS.find fs p with
    | some e =>
      have h2 := mkdirp_find_some h hf
      rw [h2] at hp
      exact hp
    | none =>
      obtain ⟨hdir, _⟩ := mkdirp_find_new h hf (by rw [hp]; exact Option.noConfusion)
      rw [hdir] at hp
      exact absurd (Option.some.inj hp) (fun hh => Entry.noConfusion hh)
  have hq0 : FS.find fs q = none := hnfd p q c r hfp hq hne
  cases hf' : FS.find fs' q with
  | none => rfl
  | some e =>
    exfalso
    obtain ⟨hdir, n, hn0, hnl, hqe⟩ :=
      mkdirp_find_new h hq0 (by rw [hf']; exact Option.noConfusion)
    have hppfx : pfx p dpath = true := by
      refine pfx_trans ?_ (pfx_take n dpath)
      rw [← hqe]
      exact hq
    have hptake : p = dpath.take p.length := (take_of_pfx hppfx).symm
    have hplen : p.length ≤ dpath.length := pfx_length_le hppfx
    have hp0 : 0 < p.length := by
      have hne0 := hwf.2.1 (p, Entry.file c r) (find_some_mem hfp)
      exact List.length_pos.mpr hne0
    have hnofile := mkdirpGo_ok_no_file h p.length hp0 hplen c r
    rw [List.nil_append, ← hptake] at hnofile
    exact hnofile hfp

theorem copyPhase_ok_spec
    {cfg : Config} {fs fs2 : FS} {src dest : Path} {total : Nat} {st2 : Stats}
    (hwf : WF fs)
    (hval : validateMigration fs src dest = none)
    (hsd : pfx src dest = false)
    (hcp : copyPhase cfg fs src dest total = Except.ok (fs2, st2)) :
    (∀ q, pfx src q = true → FS.find fs2 q = FS.find fs q) ∧
    (∀ rel c r, rel ≠ [] →
      (FS.find fs2 (dest ++ rel) = some (Entry.file c r) ↔
        FS.find fs (src ++ rel) = some (Entry.file c r))) := by
  have hds : pfx dest src = false := validate_none_not_pfx hwf hval
  have hd0 : dest ≠ [] := by
    intro hh
    rw [hh] at hds
    rw [pfx] at hds
    exact Bool.noConfusion hds
  unfold copyPhase at hcp
  cases hmk : FS.mkdirp fs dest with
  | error e =>
    rw [hmk] at hcp
    exact absurd hcp (by simp)
  | ok fs1 =>
    rw [hmk] at hcp
    have hnd1 : (keysOf fs1).Nodup := mkdirp_nodup hmk hwf.1
    have hnfd1 : NFD fs1 := nfd_mkdirp hwf hmk
    have hchain : ∀ n, 0 < n → n ≤ dest.length →
        FS.find fs1 (dest.take n) = some Entry.dir := mkdirp_chain_dir hmk
    have hsrcun : ∀ q, pfx src q = true → FS.find fs1 q = FS.find fs q := by
      intro q hq
      apply mkdirp_find_unchanged hmk
      intro n hn0 hnl hqe
      rw [hqe] at hq
      have h2 : pfx src dest = true := pfx_trans hq (pfx_take n dest)
      rw [hsd] at h2
      exact Bool.noConfusion h2
    have hdememp := validate_none_dest_empty hwf hval
    have hbase2 : ∀ rel c r, rel ≠ [] →
        (FS.find fs1 (dest ++ rel) = some (Entry.file c r) ↔
          (src ++ rel) ∈ ([] : List Path) ∧
            FS.find fs1 (src ++ rel) = some (Entry.file c r)) := by
      intro rel c r hrel
      constructor
      · intro hx
        exfalso
        have hn := hdememp rel hrel
        obtain ⟨hdir, _⟩ := mkdirp_find_new hmk hn (by rw [hx]; exact Option.noConfusion)
        rw [hdir] at hx
        exact Entry.noConfusion (Option.some.inj hx)
      · rintro ⟨hm, _⟩
        exact absurd hm (List.not_mem_nil _)
    have hbase4 : ∀ rel, rel ≠ [] → FS.find fs1 (dest ++ rel) = some Entry.dir →
        ∃ rel2, (src ++ rel2) ∈ ([] : List Path) ∧ FS.isFile fs1 (src ++ rel2) = true ∧
          pfx rel rel2 = true ∧ rel ≠ rel2 := by
      intro rel hrel hx
      exfalso
      have hn := hdememp rel hrel
      obtain ⟨_, n, hn0, hnl, hqe⟩ :=
        mkdirp_find_new hmk hn (by rw [hx]; exact Option.noConfusion)
      have hlen := congrArg List.length hqe
      rw [List.length_append, List.length_take] at hlen
      have h2 : rel.length = 0 := by omega
      exact hrel (List.eq_nil_of_length_eq_zero h2)
    have hbase3 : FS.find fs1 dest = some Entry.dir := by
      have h2 := hchain dest.length (List.length_pos.mpr hd0) (Nat.le_refl _)
      rw [List.take_length] at h2
      exact h2
    have hmemsnap : ∀ p, p ∈ ([] : List Path) ++ FS.rglob fs1 src →
        pfx src p = true ∧ p ≠ src := by
      intro p hp
      rw [List.nil_append] at hp
      obtain ⟨_, hpf, hlen⟩ := mem_rglob_iff.mp hp
      refine ⟨hpf, ?_⟩
      intro hh
      rw [hh] at hlen
      omega
    have hndsnap : (([] : List Path) ++ FS.rglob fs1 src).Nodup := by
      rw [List.nil_append]
      exact keysOf_nodup_rglob hnd1 src
    obtain ⟨hfin1, hfin2⟩ := copyFiles_ok_inv cfg src dest total fs1 hsd hds hnfd1 hchain
      (FS.rglob fs1 src) [] fs1 initStats fs2 st2 hcp hmemsnap hndsnap
      (fun q _ => rfl) hbase3 hbase2 hbase4
    constructor
    · intro q hq
      have h1 : pfx dest q = false := by
        by_contra hb
        rw [Bool.not_eq_false] at hb
        rcases pfx_comp hb hq with hx | hx
        · rw [hds] at hx
          exact Bool.noConfusion hx
        · rw [hsd] at hx
          exact Bool.noConfusion hx
      rw [hfin1 q h1]
      exact hsrcun q hq
    · intro rel c r hrel
      rw [hfin2 rel c r hrel, List.nil_append]
      constructor
      · rintro ⟨hm, hx⟩
        rw [hsrcun (src ++ rel) (pfx_append _ _)] at hx
        exact hx
      · intro hx
        have hx1 : FS.find fs1 (src ++ rel) = some (Entry.file c r) := by
          rw [hsrcun (src ++ rel) (pfx_append _ _)]
          exact hx
        refine ⟨?_, hx1⟩
        rw [mem_rglob_iff]
        refine ⟨⟨_, find_some_mem hx1⟩, pfx_append _ _, ?_⟩
        rw [List.length_append]
        have h2 : 0 < rel.length := List.length_pos.mpr hrel
        omega

theorem migrate_eq_of_validate_some {cfg : Config} {fs : FS} {s d : Path} {kb : Bool}
    {err : String} (h : validateMigration fs s d = some err) :
    migrate_data_directory cfg fs s d kb = (fs, false, { initStats with error := some err }) := by
  unfold migrate_data_directory
  rw [h]

theorem migrate_eq_body {cfg : Config} {fs : FS} {s d : Path} {kb : Bool}
    (hval : validateMigration fs s d = none)
    (hdu : FS.pathExists fs (if FS.pathExists fs d then d else d.dropLast) = true)
    (hsp : ¬ (10 * cfg.free < 11 * calculate_directory_size fs s)) :
    migrate_data_directory cfg fs s d kb =
      match copyPhase cfg fs s d (calculate_directory_size fs s) with
      | Except.error (e, fs', st) =>
        (fs', false, { st with error := some ("Migration failed: " ++ Exc.msg e) })
      | Except.ok (fs2, st2) =>
        match verify_migration fs2 s d cfg.sample with
        | (false, m) =>
          ((if cfg.rmtree_fails d then fs2 else FS.rmtree fs2 d), false,
            { st2 with error := some ("Migration verification failed: " ++ m) })
        | (true, _) => finalizePhase cfg fs2 st2 s kb := by
  unfold migrate_data_directory
  rw [hval]
  dsimp only
  rw [hdu, Bool.not_true]
  rw [if_neg (by simp)]
  rw [if_neg hsp]

theorem migrate_eq_copy_error {cfg : Config} {fs : FS} {s d : Path} {kb : Bool}
    {e : Exc} {fs3 : FS} {st3 : Stats}
    (hval : validateMigration fs s d = none)
    (hdu : FS.pathExists fs (if FS.pathExists fs d then d else d.dropLast) = true)
    (hsp : ¬ (10 * cfg.free < 11 * calculate_directory_size fs s))
    (hcp : copyPhase cfg fs s d (calculate_directory_size fs s) = Except.error (e, fs3, st3)) :
    migrate_data_directory cfg fs s d kb =
      (fs3, false, { st3 with error := some ("Migration failed: " ++ Exc.msg e) }) := by
  rw [migrate_eq_body hval hdu hsp, hcp]

theorem migrate_eq_verify_false {cfg : Config} {fs : FS} {s d : Path} {kb : Bool}
    {fs2 : FS} {st2 : Stats} {m : String}
    (hval : validateMigration fs s d = none)
    (hdu : FS.pathExists fs (if FS.pathExists fs d then d else d.dropLast) = true)
    (hsp : ¬ (10 * cfg.free < 11 * calculate_directory_size fs s))
    (hcp : copyPhase cfg fs s d (calculate_directory_size fs s) = Except.ok (fs2, st2))
    (hver : verify_migration fs2 s d cfg.sample = (false, m)) :
    migrate_data_directory cfg fs s d kb =
      ((if cfg.rmtree_fails d then fs2 else FS.rmtree fs2 d), false,
        { st2 with error := some ("Migration verification failed: " ++ m) }) := by
  rw [migrate_eq_body hval hdu hsp, hcp]
  have h2 : (match verify_migration fs2 s d cfg.sample with
      | (false, m2) =>
        ((if cfg.rmtree_fails d then fs2 else FS.rmtree fs2 d), false,
          { st2 with error := some ("Migration verification failed: " ++ m2) })
      | (true, _) => finalizePhase cfg fs2 st2 s kb) =
      ((if cfg.rmtree_fails d then fs2 else FS.rmtree fs2 d), false,
        { st2 with error := some ("Migration verification failed: " ++ m) }) := by
    rw [hver]
  exact h2

theorem migrate_eq_verify_true {cfg : Config} {fs : FS} {s d : Path} {kb : Bool}
    {fs2 : FS} {st2 : Stats} {m : String}
    (hval : validateMigration fs s d = none)
    (hdu : FS.pathExists fs (if FS.pathExists fs d then d else d.dropLast) = true)
    (hsp : ¬ (10 * cfg.free < 11 * calculate_directory_size fs s))
    (hcp : copyPhase cfg fs s d (calculate_directory_size fs s) = Except.ok (fs2, st2))
    (hver : verify_migration fs2 s d cfg.sample = (true, m)) :
    migrate_data_directory cfg fs s d kb = finalizePhase cfg fs2 st2 s kb := by
  rw [migrate_eq_body hval hdu hsp, hcp]
  have h2 : (match verify_migration fs2 s d cfg.sample with
      | (false, m2) =>
        ((if cfg.rmtree_fails d then fs2 else FS.rmtree fs2 d), false,
          { st2 with error := some ("Migration verification failed: " ++ m2) })
      | (true, _) => finalizePhase cfg fs2 st2 s kb) =
      finalizePhase cfg fs2 st2 s kb := by
    rw [hver]
  exact h2

theorem migrate_eq_of_insufficient {cfg : Config} {fs : FS} {s d : Path} {kb : Bool}
    (hval : validateMigration fs s d = none)
    (hdu : FS.pathExists fs (if FS.pathExists fs d then d else d.dropLast) = true)
    (hlow : 10 * cfg.free < 11 * calculate_directory_size fs s) :
    migrate_data_directory cfg fs s d kb =
      (fs, false, { initStats with
        error := some (insufficientSpaceMsg (calculate_directory_size fs s) cfg.free) }) := by
  unfold migrate_data_directory
  rw [hval]
  dsimp only
  rw [hdu, Bool.not_true]
  rw [if_neg (by simp)]
  rw [if_pos hlow]

theorem getLastD_concat (l : Path) (a : String) : ∀ d, (l ++ [a]).getLastD d = a := by
  induction l with
  | nil =>
    intro d
    rfl
  | cons x xs ih =>
    intro d
    rw [List.cons_append, List.getLastD_cons]
    exact ih x

theorem backupPath_ne_src (src : Path) (ts : String) : backupPath src ts ≠ src := by
  intro he
  have h1 := congrArg (fun l => List.getLastD l "") he
  simp only [backupPath] at h1
  rw [getLastD_concat] at h1
  have h2 : src.getLastD "" = sourceName src := rfl
  rw [h2] at h1
  have h3 := congrArg String.length h1
  rw [String.length_append, String.length_append] at h3
  have h4 : String.length ".backup." = 8 := rfl
  omega

theorem pfx_backupPath_false {src : Path} (ts : String) (rel' : Path) (h0 : src ≠ []) :
    pfx (backupPath src ts) (src ++ rel') = false := by
  by_contra hb
  rw [Bool.not_eq_false] at hb
  have hlen : (backupPath src ts).length = src.length := by
    rw [backupPath, List.length_append, List.length_dropLast]
    have := List.length_pos.mpr h0
    simp only [List.length_cons, List.length_nil]
    omega
  have htk := take_of_pfx hb
  rw [hlen, take_append_of_le (Nat.le_refl _), List.take_length] at htk
  exact backupPath_ne_src src ts htk.symm

/-- A sample selector modelling the `random.sample` outcome that picks
the first `min 5 n` files of the list. -/
def take5 : List Path → List Path := fun l => l.take 5

/-- A fault-free environment used by the concrete runs below. -/
def cfgA : Config :=
  { free := 1000000
    timestamp := "20260101_000000"
    sample := take5
    has_callback := false
    callback_raises := fun _ _ => false
    copy_fails := fun _ => false
    move_fails := false
    rmtree_fails := fun _ => false }

/-- A populated data directory at `/s` with the memoir layout. -/
def fsA : FS :=
  [ (["s"], Entry.dir), (["s", "memoir.json"], Entry.file [1, 2] true),
    (["s", "chapters"], Entry.dir), (["s", "chapters", "c1.md"], Entry.file [3] true),
    (["s", "images"], Entry.dir), (["s", "images", "i.jpg"], Entry.file [4, 5, 6] true) ]

theorem validate_some_ne_empty {fs : FS} {s d : Path} {err : String}
    (h : validateMigration fs s d = some err) : err ≠ "" := by
  unfold validateMigration at h
  have hgen : ∀ s2 : String, 0 < s2.length → some s2 = some err → err ≠ "" := by
    intro s2 hlen heq hcon
    obtain rfl := Option.some.inj heq
    rw [hcon] at hlen
    exact Nat.lt_irrefl 0 hlen
  have happ : ∀ s2 t2 : String, 0 < s2.length → some (s2 ++ t2) = some err → err ≠ "" := by
    intro s2 t2 hlen heq
    refine hgen (s2 ++ t2) ?_ heq
    rw [String.length_append]
    omega
  split_ifs at h
  · exact happ _ _ (by decide) h
  · exact happ _ _ (by decide) h
  · exact hgen _ (by decide) h
  · exact happ _ _ (by decide) h
  · exact happ _ _ (by decide) h

theorem finalize_success (cfg : Config) (fs2 : FS) (st2 : Stats) (s : Path) (kb : Bool) :
    (finalizePhase cfg fs2 st2 s kb).2.1 = true := by
  unfold finalizePhase
  split_ifs <;> rfl

/-- C5: if the migration passes validation and the free space reported
for the destination volume is below 1.1 times the total source size
(modelled exactly as `10 * free < 11 * total`), then
`migrate_data_directory` fails with the insufficient-space message
reporting the required and available sizes, the record still shows
`files_copied = 0` and `bytes_copied = 0`, and the filesystem is
returned unchanged — no destination file has been written. -/
theorem claim_C5 (cfg : Config) (fs : FS) (source destination : Path) (keep_backup : Bool)
    (hval : validateMigration fs source destination = none)
    (hdu : FS.pathExists fs
      (if FS.pathExists fs destination then destination else destination.dropLast) = true)
    (hlow : 10 * cfg.free < 11 * calculate_directory_size fs source) :
    migrate_data_directory cfg fs source destination keep_backup =
      (fs, false,
        { files_copied := 0, bytes_copied := 0, backup_location := none,
          error := some (insufficientSpaceMsg (calculate_directory_size fs source) cfg.free) }) := by
  rw [migrate_eq_of_insufficient hval hdu hlow]
  rfl

/-- Environment with no free space at the destination volume. -/
def cfg5 : Config := { cfgA with free := 0 }

/-- Witness for C5: a concrete populated source and empty destination
with zero free bytes. -/
theorem claim_C5_witness :
    migrate_data_directory cfg5 fsA ["s"] ["d"] false =
      (fsA, false,
        { files_copied := 0, bytes_copied := 0, backup_location := none,
          error := some (insufficientSpaceMsg (calculate_directory_size fsA ["s"]) cfg5.free) }) :=
  claim_C5 cfg5 fsA ["s"] ["d"] false (by decide) (by decide) (by decide)

/-- C8: `migrate_data_directory` is a total function — in the model
every exception of the body (including a `progress_callback` that
raises, a nonexistent path, or a permission error, all of which the
`Config` environment ranges over) is caught by the `try`/`except` of
lines 168-278 — and whenever it reports failure, the record's `error`
field carries a non-empty descriptive message. -/
theorem claim_C8 (cfg : Config) (fs : FS) (source destination : Path) (keep_backup : Bool)
    (hfail : (migrate_data_directory cfg fs source destination keep_backup).2.1 = false) :
    ∃ m, (migrate_data_directory cfg fs source destination keep_backup).2.2.error = some m ∧
      m ≠ "" := by
  cases hval : validateMigration fs source destination with
  | some err =>
    rw [migrate_eq_of_validate_some hval]
    exact ⟨err, rfl, validate_some_ne_empty hval⟩
  | none =>
    by_cases hdu : FS.pathExists fs
        (if FS.pathExists fs destination then destination else destination.dropLast) = true
    case neg =>
      rw [Bool.not_eq_true] at hdu
      unfold migrate_data_directory
      rw [hval]
      dsimp only
      rw [hdu, Bool.not_false, if_pos rfl]
      refine ⟨_, rfl, ?_⟩
      intro hcon
      have := congrArg String.length hcon
      rw [String.length_append] at this
      have h18 : String.length "Migration failed: " = 18 := rfl
      have h0 : String.length "" = 0 := rfl
      omega
    case pos =>
      by_cases hsp : 10 * cfg.free < 11 * calculate_directory_size fs source
      case pos =>
        rw [migrate_eq_of_insufficient hval hdu hsp]
        refine ⟨_, rfl, ?_⟩
        intro hcon
        have := congrArg String.length hcon
        unfold insufficientSpaceMsg at this
        rw [String.length_append, String.length_append, String.length_append,
          String.length_append] at this
        have h27 : String.length "Insufficient disk space. Need " = 30 := rfl
        have h0 : String.length "" = 0 := rfl
        omega
      case neg =>
        cases hcp : copyPhase cfg fs source destination (calculate_directory_size fs source) with
        | error e3 =>
          obtain ⟨e, fs3, st3⟩ := e3
          rw [migrate_eq_copy_error hval hdu hsp hcp]
          refine ⟨_, rfl, ?_⟩
          intro hcon
          have := congrArg String.length hcon
          rw [String.length_append] at this
          have h18 : String.length "Migration failed: " = 18 := rfl
          have h0 : String.length "" = 0 := rfl
          omega
        | ok res =>
          obtain ⟨fs2, st2⟩ := res
          rcases hver : verify_migration fs2 source destination cfg.sample with ⟨b2, m2⟩
          cases b2
          · rw [migrate_eq_verify_false hval hdu hsp hcp hver]
            refine ⟨_, rfl, ?_⟩
            intro hcon
            have := congrArg String.length hcon
            rw [String.length_append] at this
            have h31 : String.length "Migration verification failed: " = 31 := rfl
            have h0 : String.length "" = 0 := rfl
            omega
          · exfalso
            rw [migrate_eq_verify_true hval hdu hsp hcp hver] at hfail
            have h3 := finalize_success cfg fs2 st2 source keep_backup
            rw [hfail] at h3
            exact Bool.noConfusion h3

/-- Witness for C8: migrating a directory onto itself fails, and the
record carries a non-empty error message. -/
theorem claim_C8_witness :
    (migrate_data_directory cfgA fsA ["s"] ["s"] false).2.1 = false ∧
    (migrate_data_directory cfgA fsA ["s"] ["s"] false).2.2.error ≠ none := by
  obtain ⟨m, hm, hne⟩ := claim_C8 cfgA fsA ["s"] ["s"] false (by decide)
  refine ⟨by decide, ?_⟩
  rw [hm]
  exact Option.noConfusion

/-- C1: when validation and the space check pass, the copy phase
completes, and the post-copy verification returns `(False, m)`, the
migration reports failure with `error` set to the verification failure
reason; the destination tree is deleted unless the deletion itself
raises (the failure being swallowed, the result is the same either
way); and every path of the source subtree is left exactly as it was
in the initial filesystem.  The hypothesis `pfx source destination =
false` excludes a destination nested inside the source, where the real
copy loop would re-traverse its own output. -/
theorem claim_C1 (cfg : Config) (fs : FS) (source destination : Path) (keep_backup : Bool)
    (fs2 : FS) (st2 : Stats) (m : String)
    (hwf : WF fs)
    (hval : validateMigration fs source destination = none)
    (hsd : pfx source destination = false)
    (hdu : FS.pathExists fs
      (if FS.pathExists fs destination then destination else destination.dropLast) = true)
    (hsp : ¬ (10 * cfg.free < 11 * calculate_directory_size fs source))
    (hcp : copyPhase cfg fs source destination (calculate_directory_size fs source) =
      Except.ok (fs2, st2))
    (hver : verify_migration fs2 source destination cfg.sample = (false, m)) :
    migrate_data_directory cfg fs source destination keep_backup =
      ((if cfg.rmtree_fails destination then fs2 else FS.rmtree fs2 destination), false,
        { st2 with error := some ("Migration verification failed: " ++ m) }) ∧
    (∀ q, pfx source q = true →
      FS.find (if cfg.rmtree_fails destination then fs2 else FS.rmtree fs2 destination) q =
        FS.find fs q) ∧
    (cfg.rmtree_fails destination = false →
      ∀ q, pfx destination q = true → FS.find (FS.rmtree fs2 destination) q = none) := by
  obtain ⟨hframe, _⟩ := copyPhase_ok_spec hwf hval hsd hcp
  have hds := validate_none_not_pfx hwf hval
  refine ⟨migrate_eq_verify_false hval hdu hsp hcp hver, ?_, ?_⟩
  · intro q hq
    by_cases hrm : cfg.rmtree_fails destination = true
    · rw [if_pos hrm]
      exact hframe q hq
    · rw [Bool.not_eq_true] at hrm
      rw [hrm]
      rw [if_neg (by simp)]
      rw [find_rmtree]
      have hnd : pfx destination q = false := by
        by_contra hb
        rw [Bool.not_eq_false] at hb
        rcases pfx_comp hb hq with hx | hx
        · rw [hds] at hx
          exact Bool.noConfusion hx
        · rw [hsd] at hx
          exact Bool.noConfusion hx
      rw [hnd]
      rw [if_neg (by simp)]
      exact hframe q hq
  · intro _ q hq
    rw [find_rmtree, hq]
    rw [if_pos rfl]

/-- A source with an empty `chapters/` and `images/`: the copy phase
copies only regular files, so the empty directories are not recreated
and verification fails structurally. -/
def fs3v : FS :=
  [ (["s"], Entry.dir), (["s", "memoir.json"], Entry.file [1] true),
    (["s", "chapters"], Entry.dir), (["s", "images"], Entry.dir) ]

/-- The copy-phase result for `fs3v`. -/
def fs2v : FS := fs3v ++ [(["d"], Entry.dir), (["d", "memoir.json"], Entry.file [1] true)]

/-- Witness for C1: verification fails on the concrete run (the empty
`chapters/` directory is not recreated by the file-by-file copy), the
destination is wiped and the source is untouched. -/
theorem claim_C1_witness :
    migrate_data_directory cfgA fs3v ["s"] ["d"] true =
      (FS.rmtree fs2v ["d"], false,
        { files_copied := 1, bytes_copied := 1, backup_location := none,
          error := some ("Migration verification failed: " ++
            "chapters/ directory not found in destination") }) ∧
    FS.find (FS.rmtree fs2v ["d"]) ["s", "memoir.json"] = FS.find fs3v ["s", "memoir.json"] ∧
    FS.find (FS.rmtree fs2v ["d"]) ["d", "memoir.json"] = none := by
  obtain ⟨h1, h2, h3⟩ := claim_C1 cfgA fs3v ["s"] ["d"] true fs2v ⟨1, 1, none, none⟩
    "chapters/ directory not found in destination" (by decide) (by decide) (by decide)
    (by decide) (by decide) rfl (by decide)
  refine ⟨?_, ?_, ?_⟩
  · rw [h1]
    decide
  · exact h2 ["s", "memoir.json"] (by decide)
  · exact h3 (by decide) ["d", "memoir.json"] (by decide)

/-- C3 (amended): past validation and the space check, a failure
before successful verification returns `success = False`, but the
destination is cleaned up only when the failure is a verification
failure; an exception raised during the copy phase (`copyPhase`
returning an error) is caught by the outer handler, which records the
message and returns the filesystem exactly as the exception left it —
the partially copied destination stays in place. -/
theorem claim_C3 (cfg : Config) (fs : FS) (source destination : Path) (keep_backup : Bool)
    (hval : validateMigration fs source destination = none)
    (hdu : FS.pathExists fs
      (if FS.pathExists fs destination then destination else destination.dropLast) = true)
    (hsp : ¬ (10 * cfg.free < 11 * calculate_directory_size fs source)) :
    (∀ e fs3 st3,
      copyPhase cfg fs source destination (calculate_directory_size fs source) =
        Except.error (e, fs3, st3) →
      migrate_data_directory cfg fs source destination keep_backup =
        (fs3, false, { st3 with error := some ("Migration failed: " ++ Exc.msg e) })) ∧
    (∀ fs2 st2 m,
      copyPhase cfg fs source destination (calculate_directory_size fs source) =
        Except.ok (fs2, st2) →
      verify_migration fs2 source destination cfg.sample = (false, m) →
      cfg.rmtree_fails destination = false →
      migrate_data_directory cfg fs source destination keep_backup =
        (FS.rmtree fs2 destination, false,
          { st2 with error := some ("Migration verification failed: " ++ m) }) ∧
      (∀ q, pfx destination q = true → FS.find (FS.rmtree fs2 destination) q = none)) := by
  constructor
  · intro e fs3 st3 hcp
    exact migrate_eq_copy_error hval hdu hsp hcp
  · intro fs2 st2 m hcp hver hrm
    constructor
    · have h1 := @migrate_eq_verify_false cfg fs source destination keep_backup fs2 st2 m
        hval hdu hsp hcp hver
      rw [hrm] at h1
      rw [if_neg (by simp)] at h1
      exact h1
    · intro q hq
      rw [find_rmtree, hq]
      rw [if_pos rfl]

/-- An environment in which `shutil.copy2` raises on `/s/b`. -/
def cfg3 : Config := { cfgA with copy_fails := fun p => decide (p = ["s", "b"]) }

/-- A source with two files at `/s`. -/
def fs3c : FS :=
  [ (["s"], Entry.dir), (["s", "a"], Entry.file [7] true), (["s", "b"], Entry.file [8] true) ]

/-- Counterexample for C3: the copy of the second file raises after
the first destination file has been written; the migration returns
`success = False` but the destination tree is NOT deleted — the copied
file `/d/a` is still present in the returned filesystem. -/
theorem claim_C3_counterexample :
    (migrate_data_directory cfg3 fs3c ["s"] ["d"] false).2.1 = false ∧
    (migrate_data_directory cfg3 fs3c ["s"] ["d"] false).2.2.files_copied = 1 ∧
    FS.find (migrate_data_directory cfg3 fs3c ["s"] ["d"] false).1 ["d", "a"] =
      some (Entry.file [7] true) ∧
    FS.isDir (migrate_data_directory cfg3 fs3c ["s"] ["d"] false).1 ["d"] = true := by
  decide

/-- Witness for C3 (amended): the concrete verification-failure run of
`fs3v`, where the destination is wiped, and the concrete copy-failure
run of `fs3c`, where the partial destination is left in place. -/
theorem claim_C3_witness :
    migrate_data_directory cfgA fs3v ["s"] ["d"] false =
      (FS.rmtree fs2v ["d"], false,
        { files_copied := 1, bytes_copied := 1, backup_location := none,
          error := some ("Migration verification failed: " ++
            "chapters/ directory not found in destination") }) ∧
    FS.find (FS.rmtree fs2v ["d"]) ["d"] = none := by
  have h := claim_C3 cfgA fs3v ["s"] ["d"] false (by decide) (by decide) (by decide)
  obtain ⟨h1, h2⟩ := h.2 fs2v ⟨1, 1, none, none⟩
    "chapters/ directory not found in destination" rfl (by decide) (by decide)
  exact ⟨h1, h2 ["d"] (by decide)⟩

/-- An environment in which the backup rename raises. -/
def cfg9a : Config := { cfgA with move_fails := true }

/-- An environment in which removing the source tree raises. -/
def cfg9b : Config := { cfgA with rmtree_fails := fun p => decide (p = ["s"]) }

/-- C9: two successful migrations (`success = True`) whose returned
record has a non-`None` `error` field: one where the backup rename
fails (`keep_backup = True`) and one where the source deletion fails
(`keep_backup = False`).  The warnings land in the same `error` field
that fatal failures use, so `error ≠ None` does not imply failure. -/
theorem claim_C9 :
    ((migrate_data_directory cfg9a fsA ["s"] ["d"] true).2.1 = true ∧
      (migrate_data_directory cfg9a fsA ["s"] ["d"] true).2.2.error =
        some ("Warning: Could not create backup: " ++ Exc.msg Exc.moveFail)) ∧
    ((migrate_data_directory cfg9b fsA ["s"] ["d"] false).2.1 = true ∧
      (migrate_data_directory cfg9b fsA ["s"] ["d"] false).2.2.error =
        some ("Warning: Could not remove source directory: " ++
          Exc.msg (Exc.rmtreeFail ["s"]))) := by
  decide

theorem migrate_eq_du_fail {cfg : Config} {fs : FS} {s d : Path} {kb : Bool}
    (hval : validateMigration fs s d = none)
    (hdu : FS.pathExists fs (if FS.pathExists fs d then d else d.dropLast) = false) :
    migrate_data_directory cfg fs s d kb =
      (fs, false, { initStats with error := some ("Migration failed: " ++
        Exc.msg (Exc.diskUsageFail (if FS.pathExists fs d then d else d.dropLast))) }) := by
  unfold migrate_data_directory
  rw [hval]
  dsimp only
  rw [hdu, Bool.not_false, if_pos rfl]

/-- C2: a migration that reports success leaves the destination tree
byte-identical to the original source tree: for every non-trivial
relative path, the destination holds a regular file with a given
content (and metadata) exactly when the original source held that file
at the same relative path — so every source file is present with
identical bytes, and the destination holds no extra files.  The
prefix-freeness hypotheses exclude a destination nested inside the
source (where the real copy loop would re-traverse its own output) and
a destination overlapping the timestamp-fresh backup path. -/
theorem claim_C2 (cfg : Config) (fs : FS) (source destination : Path) (keep_backup : Bool)
    (fs' : FS) (st : Stats)
    (hwf : WF fs)
    (hsd : pfx source destination = false)
    (hbp1 : pfx destination (backupPath source cfg.timestamp) = false)
    (hbp2 : pfx (backupPath source cfg.timestamp) destination = false)
    (hmig : migrate_data_directory cfg fs source destination keep_backup = (fs', true, st)) :
    ∀ rel, rel ≠ [] → ∀ c r,
      (FS.find fs' (destination ++ rel) = some (Entry.file c r) ↔
        FS.find fs (source ++ rel) = some (Entry.file c r)) := by
  cases hval : validateMigration fs source destination with
  | some err =>
    exfalso
    rw [migrate_eq_of_validate_some hval] at hmig
    exact Bool.noConfusion (congrArg (fun t => t.2.1) hmig)
  | none =>
    by_cases hdu : FS.pathExists fs
        (if FS.pathExists fs destination then destination else destination.dropLast) = true
    case neg =>
      exfalso
      rw [Bool.not_eq_true] at hdu
      rw [migrate_eq_du_fail hval hdu] at hmig
      exact Bool.noConfusion (congrArg (fun t => t.2.1) hmig)
    case pos =>
      by_cases hsp : 10 * cfg.free < 11 * calculate_directory_size fs source
      case pos =>
        exfalso
        rw [migrate_eq_of_insufficient hval hdu hsp] at hmig
        exact Bool.noConfusion (congrArg (fun t => t.2.1) hmig)
      case neg =>
        cases hcp : copyPhase cfg fs source destination (calculate_directory_size fs source) with
        | error e3 =>
          exfalso
          obtain ⟨e, fs3, st3⟩ := e3
          rw [migrate_eq_copy_error hval hdu hsp hcp] at hmig
          exact Bool.noConfusion (congrArg (fun t => t.2.1) hmig)
        | ok res =>
          obtain ⟨fs2, st2⟩ := res
          obtain ⟨hframe, hfiles⟩ := copyPhase_ok_spec hwf hval hsd hcp
          have hds := validate_none_not_pfx hwf hval
          rcases hver : verify_migration fs2 source destination cfg.sample with ⟨b2, m2⟩
          cases b2
          · exfalso
            rw [migrate_eq_verify_false hval hdu hsp hcp hver] at hmig
            exact Bool.noConfusion (congrArg (fun t => t.2.1) hmig)
          · rw [migrate_eq_verify_true hval hdu hsp hcp hver] at hmig
            intro rel hrel c r
            have hnotsrc : pfx source (destination ++ rel) = false := by
              by_contra hb
              rw [Bool.not_eq_false] at hb
              rcases pfx_comp hb (pfx_append destination rel) with hx | hx
              · rw [hsd] at hx
                exact Bool.noConfusion hx
              · rw [hds] at hx
                exact Bool.noConfusion hx
            unfold finalizePhase at hmig
            cases keep_backup with
            | true =>
              rw [if_pos rfl] at hmig
              by_cases hmf : cfg.move_fails = true
              · rw [if_pos hmf] at hmig
                injection hmig with ha hb2
                rw [← ha]
                exact hfiles rel c r hrel
              · rw [Bool.not_eq_true] at hmf
                rw [hmf] at hmig
                rw [if_neg (by simp)] at hmig
                injection hmig with ha hb2
                rw [← ha]
                have hbq : pfx (backupPath source cfg.timestamp) (destination ++ rel) = false := by
                  by_contra hbb
                  rw [Bool.not_eq_false] at hbb
                  rcases pfx_comp hbb (pfx_append destination rel) with hx | hx
                  · rw [hbp2] at hx
                    exact Bool.noConfusion hx
                  · rw [hbp1] at hx
                    exact Bool.noConfusion hx
                rw [find_move_of_not_pfx_dst hbq, hnotsrc]
                rw [if_neg (by simp)]
                exact hfiles rel c r hrel
            | false =>
              rw [if_neg (by simp)] at hmig
              by_cases hrf : cfg.rmtree_fails source = true
              · rw [if_pos hrf] at hmig
                injection hmig with ha hb2
                rw [← ha]
                exact hfiles rel c r hrel
              · rw [Bool.not_eq_true] at hrf
                rw [hrf] at hmig
                rw [if_neg (by simp)] at hmig
                injection hmig with ha hb2
                rw [← ha]
                rw [find_rmtree, hnotsrc]
                rw [if_neg (by simp)]
                exact hfiles rel c r hrel

/-- The state after the copy phase of the fault-free run on `fsA`. -/
def fs2full : FS :=
  fsA ++ [(["d"], Entry.dir), (["d", "memoir.json"], Entry.file [1, 2] true),
    (["d", "chapters"], Entry.dir), (["d", "chapters", "c1.md"], Entry.file [3] true),
    (["d", "images"], Entry.dir), (["d", "images", "i.jpg"], Entry.file [4, 5, 6] true)]

/-- Witness for C2: the fault-free migration of `fsA` succeeds and the
destination copy of `memoir.json` matches the original source file. -/
theorem claim_C2_witness :
    FS.find (FS.rmtree fs2full ["s"]) (["d"] ++ ["memoir.json"]) =
        some (Entry.file [1, 2] true) ↔
      FS.find fsA (["s"] ++ ["memoir.json"]) = some (Entry.file [1, 2] true) :=
  claim_C2 cfgA fsA ["s"] ["d"] false (FS.rmtree fs2full ["s"]) ⟨3, 6, none, none⟩
    (by decide) (by decide) (by decide) (by decide) rfl ["memoir.json"] (by decide) [1, 2] true

/-- C7: a verified migration with `keep_backup = True` renames the
source to the timestamp-named sibling `<name>.backup.<timestamp>`:
when the rename succeeds the record's `backup_location` carries that
path, the original source path (and everything under it) no longer
exists, and the backup subtree holds exactly the original source
entries; when the rename raises, the migration still returns
`success = True` with a backup-failure warning in the record.
`hclean` states that the timestamped backup path is fresh. -/
theorem claim_C7 (cfg : Config) (fs : FS) (source destination : Path)
    (fs2 : FS) (st2 : Stats) (m : String)
    (hwf : WF fs)
    (hval : validateMigration fs source destination = none)
    (hsd : pfx source destination = false)
    (hdu : FS.pathExists fs
      (if FS.pathExists fs destination then destination else destination.dropLast) = true)
    (hsp : ¬ (10 * cfg.free < 11 * calculate_directory_size fs source))
    (hcp : copyPhase cfg fs source destination (calculate_directory_size fs source) =
      Except.ok (fs2, st2))
    (hver : verify_migration fs2 source destination cfg.sample = (true, m))
    (hclean : ∀ kv, kv ∈ fs2 → pfx (backupPath source cfg.timestamp) kv.1 = false) :
    (cfg.move_fails = false →
      migrate_data_directory cfg fs source destination true =
        (FS.move fs2 source (backupPath source cfg.timestamp), true,
          { st2 with backup_location := some (pathToString (backupPath source cfg.timestamp)) }) ∧
      (∀ rel', FS.find (FS.move fs2 source (backupPath source cfg.timestamp))
          (source ++ rel') = none) ∧
      (∀ rel', FS.find (FS.move fs2 source (backupPath source cfg.timestamp))
          (backupPath source cfg.timestamp ++ rel') = FS.find fs (source ++ rel'))) ∧
    (cfg.move_fails = true →
      migrate_data_directory cfg fs source destination true =
        (fs2, true, { st2 with
          error := some ("Warning: Could not create backup: " ++ Exc.msg Exc.moveFail) })) := by
  have hsrc0 : source ≠ [] := by
    intro hh
    rw [hh] at hsd
    rw [pfx] at hsd
    exact Bool.noConfusion hsd
  obtain ⟨hframe, _⟩ := copyPhase_ok_spec hwf hval hsd hcp
  have hmig := @migrate_eq_verify_true cfg fs source destination true fs2 st2 m
    hval hdu hsp hcp hver
  constructor
  · intro hmf
    refine ⟨?_, ?_, ?_⟩
    · rw [hmig]
      unfold finalizePhase
      rw [if_pos rfl, hmf]
      rw [if_neg (by simp)]
    · intro rel'
      rw [find_move_of_not_pfx_dst (pfx_backupPath_false cfg.timestamp rel' hsrc0)]
      rw [pfx_append, if_pos rfl]
    · intro rel'
      rw [find_move_dst hclean rel']
      exact hframe (source ++ rel') (pfx_append _ _)
  · intro hmf
    rw [hmig]
    unfold finalizePhase
    rw [if_pos rfl, hmf]
    rw [if_pos rfl]

/-- Witness for C7: the fault-free `keep_backup = True` migration of
`fsA`: the backup path is recorded, `/s` is gone, and the backup holds
the original `memoir.json`. -/
theorem claim_C7_witness :
    migrate_data_directory cfgA fsA ["s"] ["d"] true =
      (FS.move fs2full ["s"] (backupPath ["s"] cfgA.timestamp), true,
        { files_copied := 3, bytes_copied := 6,
          backup_location := some (pathToString (backupPath ["s"] cfgA.timestamp)),
          error := none }) ∧
    FS.find (FS.move fs2full ["s"] (backupPath ["s"] cfgA.timestamp)) (["s"] ++ []) = none ∧
    FS.find (FS.move fs2full ["s"] (backupPath ["s"] cfgA.timestamp))
      (backupPath ["s"] cfgA.timestamp ++ ["memoir.json"]) =
      FS.find fsA (["s"] ++ ["memoir.json"]) := by
  obtain ⟨hA, _⟩ := claim_C7 cfgA fsA ["s"] ["d"] fs2full ⟨3, 6, none, none⟩
    "Migration verified successfully" (by decide) (by decide) (by decide) (by decide)
    (by decide) rfl rfl (by decide)
  obtain ⟨h1, h2, h3⟩ := hA rfl
  exact ⟨h1, h2 [], h3 ["memoir.json"]⟩

/-- A migrated tree whose copy is complete (same relative paths, same
file counts) but whose destination `chapters/` and `images/` are empty
directories, with `memoir.json` present on both sides. -/
def fs4 : FS :=
  [ (["s"], Entry.dir), (["s", "memoir.json"], Entry.file [7] true),
    (["d"], Entry.dir), (["d", "memoir.json"], Entry.file [7] true),
    (["d", "chapters"], Entry.dir), (["d", "images"], Entry.dir) ]

/-- Counterexample for C4: the source contains `memoir.json` and the
destination's `chapters/` and `images/` are empty, yet
`verify_migration` reports success — the code checks only that they
exist and are directories (lines 90-94), not that they are non-empty.
The sample used is a legitimate `random.sample` outcome. -/
theorem claim_C4_counterexample :
    verify_migration fs4 ["s"] ["d"] take5 = (true, "Migration verified successfully") ∧
    FS.pathExists fs4 (["s"] ++ ["memoir.json"]) = true ∧
    FS.iterdir fs4 ["d", "chapters"] = [] ∧
    FS.iterdir fs4 ["d", "images"] = [] ∧
    ValidSample (filesUnder fs4 ["s"]) (take5 (filesUnder fs4 ["s"])) := by
  refine ⟨by decide, by decide, by decide, by decide, by decide⟩

/-- C4 (amended): if the source contains `memoir.json`, then
`verify_migration` returns `is_valid = False` unless the destination
contains `memoir.json` and contains `chapters/` and `images/` entries
that exist and are directories — their non-emptiness is not checked. -/
theorem claim_C4 (fs : FS) (source destination : Path)
    (sampleSel : List Path → List Path) (m : String)
    (hmem : FS.pathExists fs (source ++ ["memoir.json"]) = true)
    (hv : verify_migration fs source destination sampleSel = (true, m)) :
    FS.pathExists fs (destination ++ ["memoir.json"]) = true ∧
    (FS.pathExists fs (destination ++ ["chapters"]) &&
      FS.isDir fs (destination ++ ["chapters"])) = true ∧
    (FS.pathExists fs (destination ++ ["images"]) &&
      FS.isDir fs (destination ++ ["images"])) = true := by
  have hsc : structuralCheck fs source destination = none := by
    unfold verify_migration at hv
    split at hv
    case isTrue h1 => exact Bool.noConfusion (congrArg Prod.fst hv)
    case isFalse h1 =>
      split at hv
      case isTrue h2 => exact Bool.noConfusion (congrArg Prod.fst hv)
      case isFalse h2 =>
        cases hsc2 : structuralCheck fs source destination with
        | none => rfl
        | some m2 =>
          rw [hsc2] at hv
          have hv2 : ((false, m2) : Bool × String) = (true, m) := hv
          exact Bool.noConfusion (congrArg Prod.fst hv2)
  unfold structuralCheck at hsc
  rw [if_pos hmem] at hsc
  have h1 : FS.pathExists fs (destination ++ ["memoir.json"]) = true := by
    by_contra hb
    rw [Bool.not_eq_true] at hb
    rw [hb, Bool.not_false, if_pos rfl] at hsc
    exact Option.noConfusion hsc
  rw [h1, Bool.not_true] at hsc
  rw [if_neg (by simp)] at hsc
  have h2 : (FS.pathExists fs (destination ++ ["chapters"]) &&
      FS.isDir fs (destination ++ ["chapters"])) = true := by
    by_contra hb
    rw [Bool.not_eq_true] at hb
    rw [hb, Bool.not_false, if_pos rfl] at hsc
    exact Option.noConfusion hsc
  rw [h2, Bool.not_true] at hsc
  rw [if_neg (by simp)] at hsc
  have h3 : (FS.pathExists fs (destination ++ ["images"]) &&
      FS.isDir fs (destination ++ ["images"])) = true := by
    by_contra hb
    rw [Bool.not_eq_true] at hb
    rw [hb, Bool.not_false, if_pos rfl] at hsc
    exact Option.noConfusion hsc
  exact ⟨h1, h2, h3⟩

/-- Witness for C4 (amended), applied to the concrete tree `fs4`. -/
theorem claim_C4_witness :
    FS.pathExists fs4 (["d"] ++ ["memoir.json"]) = true ∧
    (FS.pathExists fs4 (["d"] ++ ["chapters"]) && FS.isDir fs4 (["d"] ++ ["chapters"])) = true ∧
    (FS.pathExists fs4 (["d"] ++ ["images"]) && FS.isDir fs4 (["d"] ++ ["images"])) = true :=
  claim_C4 fs4 ["s"] ["d"] take5 "Migration verified successfully" (by decide) (by decide)

theorem verify_eq_checkSample (fs : FS) (source destination : Path)
    (sampleSel : List Path → List Path)
    (hde : FS.pathExists fs destination = true)
    (hdd : FS.isDir fs destination = true)
    (hsc : structuralCheck fs source destination = none)
    (hcnt : (filesUnder fs source).length = (filesUnder fs destination).length)
    (hne : filesUnder fs source ≠ []) :
    verify_migration fs source destination sampleSel =
      checkSample fs source destination (sampleSel (filesUnder fs source)) := by
  unfold verify_migration
  rw [hde, Bool.not_true]
  rw [if_neg (by simp)]
  rw [hdd, Bool.not_true]
  rw [if_neg (by simp)]
  rw [hsc]
  have hstep : (match (none : Option String) with
      | some m => ((false, m) : Bool × String)
      | none => verifyTail fs source destination sampleSel) =
      verifyTail fs source destination sampleSel := rfl
  rw [hstep]
  unfold verifyTail
  dsimp only
  rw [if_neg (not_not_intro hcnt)]
  have hie : (filesUnder fs source).isEmpty = false := by
    rw [Bool.eq_false_iff]
    intro hx
    exact hne (List.isEmpty_iff.mp hx)
  rw [hie]
  rw [if_neg (by simp)]

theorem checkSample_offender {fs : FS} {source destination : Path} :
    ∀ (l : List Path) (p : Path), p ∈ l →
      (FS.pathExists fs (destination ++ p.drop source.length) = false ∨
        calculate_file_checksum fs p ≠
          calculate_file_checksum fs (destination ++ p.drop source.length)) →
      (checkSample fs source destination l).1 = false ∧
      ∃ q, q ∈ l ∧
        ((FS.pathExists fs (destination ++ q.drop source.length) = false ∧
          (checkSample fs source destination l).2 =
            "File missing in destination: " ++ relString (q.drop source.length)) ∨
         (FS.pathExists fs (destination ++ q.drop source.length) = true ∧
          calculate_file_checksum fs q ≠
            calculate_file_checksum fs (destination ++ q.drop source.length) ∧
          (checkSample fs source destination l).2 =
            "Checksum mismatch for " ++ relString (q.drop source.length))) := by
  intro l
  induction l with
  | nil =>
    intro p hp
    exact absurd hp (List.not_mem_nil p)
  | cons f rest ih =>
    intro p hp hbad
    by_cases hfe : FS.pathExists fs (destination ++ f.drop source.length) = true
    case neg =>
      rw [Bool.not_eq_true] at hfe
      have hck : checkSample fs source destination (f :: rest) =
          (false, "File missing in destination: " ++ relString (f.drop source.length)) := by
        rw [checkSample]
        rw [hfe, Bool.not_false, if_pos rfl]
      rw [hck]
      exact ⟨rfl, f, List.mem_cons_self _ _, Or.inl ⟨hfe, rfl⟩⟩
    case pos =>
      by_cases hsum : calculate_file_checksum fs f ≠
          calculate_file_checksum fs (destination ++ f.drop source.length)
      case pos =>
        have hck : checkSample fs source destination (f :: rest) =
            (false, "Checksum mismatch for " ++ relString (f.drop source.length)) := by
          rw [checkSample]
          rw [hfe, Bool.not_true]
          rw [if_neg (by simp)]
          rw [if_pos hsum]
        rw [hck]
        exact ⟨rfl, f, List.mem_cons_self _ _, Or.inr ⟨hfe, hsum, rfl⟩⟩
      case neg =>
        have hck : checkSample fs source destination (f :: rest) =
            checkSample fs source destination rest := by
          rw [checkSample]
          rw [hfe, Bool.not_true]
          rw [if_neg (by simp)]
          rw [if_neg hsum]
        rw [hck]
        have hprest : p ∈ rest := by
          rcases List.mem_cons.mp hp with heq | h2
          · exfalso
            subst heq
            rcases hbad with hb1 | hb2
            · rw [hfe] at hb1
              exact Bool.noConfusion hb1
            · exact hsum hb2
          · exact h2
        obtain ⟨hr1, q, hq, hq2⟩ := ih p hprest hbad
        exact ⟨hr1, q, List.mem_cons_of_mem _ hq, hq2⟩

/-- C6 (amended): under matching structure and file counts, any
sampled source file whose destination counterpart is missing or whose
checksum differs makes `verify_migration` return `is_valid = False`
with a message naming the offending relative path (the first offender
in sample order).  Detection is only guaranteed for files that are in
the sample; when the tree has at most 5 files the sample is the whole
tree, so a single corrupted byte is always detected there. -/
theorem claim_C6 (fs : FS) (source destination : Path)
    (sampleSel : List Path → List Path)
    (hde : FS.pathExists fs destination = true)
    (hdd : FS.isDir fs destination = true)
    (hsc : structuralCheck fs source destination = none)
    (hcnt : (filesUnder fs source).length = (filesUnder fs destination).length)
    (hne : filesUnder fs source ≠ [])
    (p : Path) (hp : p ∈ sampleSel (filesUnder fs source))
    (hbad : FS.pathExists fs (destination ++ p.drop source.length) = false ∨
      calculate_file_checksum fs p ≠
        calculate_file_checksum fs (destination ++ p.drop source.length)) :
    (verify_migration fs source destination sampleSel).1 = false ∧
    ∃ q, q ∈ sampleSel (filesUnder fs source) ∧
      ((FS.pathExists fs (destination ++ q.drop source.length) = false ∧
        (verify_migration fs source destination sampleSel).2 =
          "File missing in destination: " ++ relString (q.drop source.length)) ∨
       (FS.pathExists fs (destination ++ q.drop source.length) = true ∧
        calculate_file_checksum fs q ≠
          calculate_file_checksum fs (destination ++ q.drop source.length) ∧
        (verify_migration fs source destination sampleSel).2 =
          "Checksum mismatch for " ++ relString (q.drop source.length))) := by
  rw [verify_eq_checkSample fs source destination sampleSel hde hdd hsc hcnt hne]
  exact checkSample_offender (sampleSel (filesUnder fs source)) p hp hbad

/-- A migrated tree of six files whose copies agree except for a
single corrupted byte in the last file. -/
def fs6 : FS :=
  [ (["s"], Entry.dir),
    (["s", "f1"], Entry.file [1] true), (["s", "f2"], Entry.file [2] true),
    (["s", "f3"], Entry.file [3] true), (["s", "f4"], Entry.file [4] true),
    (["s", "f5"], Entry.file [5] true), (["s", "f6"], Entry.file [6] true),
    (["d"], Entry.dir),
    (["d", "f1"], Entry.file [1] true), (["d", "f2"], Entry.file [2] true),
    (["d", "f3"], Entry.file [3] true), (["d", "f4"], Entry.file [4] true),
    (["d", "f5"], Entry.file [5] true), (["d", "f6"], Entry.file [99] true) ]

/-- Counterexample for C6: exactly one destination file differs from
its source counterpart by one byte, all relative paths and file counts
match, the sample is a legitimate `random.sample` outcome of 5 of the
6 files — and `verify_migration` returns `is_valid = True` because
the corrupted file is not among the sampled ones. -/
theorem claim_C6_counterexample :
    verify_migration fs6 ["s"] ["d"] take5 = (true, "Migration verified successfully") ∧
    ValidSample (filesUnder fs6 ["s"]) (take5 (filesUnder fs6 ["s"])) ∧
    FS.find fs6 ["s", "f6"] = some (Entry.file [6] true) ∧
    FS.find fs6 ["d", "f6"] = some (Entry.file [99] true) ∧
    (filesUnder fs6 ["s"]).length = (filesUnder fs6 ["d"]).length := by
  refine ⟨by decide, by decide, by decide, by decide, by decide⟩

/-- A one-file migrated tree whose single copy is corrupted. -/
def fs6w : FS :=
  [ (["s"], Entry.dir), (["s", "a"], Entry.file [1] true),
    (["d"], Entry.dir), (["d", "a"], Entry.file [2] true) ]

/-- Witness for C6 (amended): the corrupted file is in the sample and
verification fails naming its relative path. -/
theorem claim_C6_witness :
    (verify_migration fs6w ["s"] ["d"] take5).1 = false ∧
    (verify_migration fs6w ["s"] ["d"] take5).2 = "Checksum mismatch for " ++ relString ["a"] := by
  obtain ⟨h1, q, hq, hq2⟩ := claim_C6 fs6w ["s"] ["d"] take5 (by decide) (by decide)
    (by decide) (by decide) (by decide) ["s", "a"] (by decide) (Or.inr (by decide))
  refine ⟨h1, ?_⟩
  have hsel : take5 (filesUnder fs6w ["s"]) = [["s", "a"]] := by decide
  rw [hsel] at hq
  rw [List.mem_singleton] at hq
  subst hq
  rcases hq2 with ⟨hpe, _⟩ | ⟨_, _, hmsg⟩
  · exact absurd hpe (by decide)
  · exact hmsg

/-- A migrated tree where the single source file and its destination
counterpart are both unreadable — and have different contents. -/
def fs10 : FS :=
  [ (["s"], Entry.dir), (["s", "a"], Entry.file [1] false),
    (["d"], Entry.dir), (["d", "a"], Entry.file [2] false) ]

/-- C10: `calculate_file_checksum` returns the failure value (the
model of the empty string `""` returned at line 58) for any file it
cannot open and read, instead of signalling an error; consequently, on
the concrete tree `fs10`, where the sampled source file and its
destination counterpart are both unreadable and hold different bytes,
the two checksums compare equal and `verify_migration` returns
`is_valid = True` without having compared any content. -/
theorem claim_C10 :
    (∀ (fs : FS) (p : Path) (c : List Byte),
      FS.find fs p = some (Entry.file c false) → calculate_file_checksum fs p = none) ∧
    (verify_migration fs10 ["s"] ["d"] take5 = (true, "Migration verified successfully") ∧
      FS.find fs10 ["s", "a"] = some (Entry.file [1] false) ∧
      FS.find fs10 ["d", "a"] = some (Entry.file [2] false) ∧
      calculate_file_checksum fs10 ["s", "a"] = calculate_file_checksum fs10 ["d", "a"]) := by
  constructor
  · intro fs p c h
    unfold calculate_file_checksum
    rw [h]
  · refine ⟨by decide, by decide, by decide, by decide⟩

/-- Witness for C10: the unreadable source file of `fs10` checksums to
the failure value. -/
theorem claim_C10_witness : calculate_file_checksum fs10 ["s", "a"] = none :=
  claim_C10.1 fs10 ["s", "a"] [1] (by decide)

end Memdoc
